import Mathlib

/-!
# Verification of the financial transaction dataset generator

Shallow embedding of `src/data/financial_data_gen.py`.

Modelling conventions:
* Python strings are `List Char`.
* Python numbers (the script only manipulates amounts and balances that are
  exact multiples of 1/100 whenever they are rendered or compared) are `ℚ`.
* The shared pseudo-random source (`random` seeded once in `main`) is an
  `Oracle`: a stream of uniform draws in `[0, 1)`, consumed in program order;
  a position counter is threaded through every function exactly in the order
  the Python code calls the `random` module.
* Heterogeneous record fields (which may hold `None`, a string or a number
  after corruption) are the inductive `Value`.
-/

set_option maxRecDepth 100000

namespace FinGen

abbrev Chars := List Char

/-- Decimal digit to character, mirroring Python's decimal rendering. -/
def digitChar : Nat → Char
  | 0 => '0' | 1 => '1' | 2 => '2' | 3 => '3' | 4 => '4'
  | 5 => '5' | 6 => '6' | 7 => '7' | 8 => '8' | _ => '9'

/-- Character back to digit value (left inverse of `digitChar` below 10). -/
def charDigitVal (c : Char) : Nat :=
  if c = '0' then 0 else if c = '1' then 1 else if c = '2' then 2
  else if c = '3' then 3 else if c = '4' then 4 else if c = '5' then 5
  else if c = '6' then 6 else if c = '7' then 7 else if c = '8' then 8 else 9

/-- Little-endian decimal digits of `n`, fuel-structured so the kernel can
evaluate it (`fuel ≥ n` suffices). -/
def natDigitsAux : Nat → Nat → List Nat
  | 0, _ => []
  | _ + 1, 0 => []
  | f + 1, n + 1 => ((n + 1) % 10) :: natDigitsAux f ((n + 1) / 10)

/-- Python `str(n)` for a natural number. -/
def natStr (n : Nat) : Chars :=
  if n = 0 then ['0'] else ((natDigitsAux n n).reverse.map digitChar)

/-- Python `str.zfill`: left-pad with '0' to width `w`. -/
def zfill (w : Nat) (s : Chars) : Chars :=
  List.replicate (w - s.length) '0' ++ s

/-- The transaction id string `f"TXN{str(n).zfill(8)}"`. -/
def txnId (n : Nat) : Chars :=
  'T' :: 'X' :: 'N' :: zfill 8 (natStr n)

/-- The customer id string `f"CUST{str(n).zfill(6)}"`. -/
def custId (n : Nat) : Chars :=
  'C' :: 'U' :: 'S' :: 'T' :: zfill 6 (natStr n)

section NatStrLemmas

/-- Value of a little-endian digit list. -/
def ofDig : List Nat → Nat
  | [] => 0
  | d :: l => d + 10 * ofDig l

theorem natDigitsAux_zero (f : Nat) : natDigitsAux f 0 = [] := by
  cases f <;> rfl

theorem ofDig_natDigitsAux (f : Nat) : ∀ n, n ≤ f → ofDig (natDigitsAux f n) = n := by
  induction f with
  | zero => intro n hn; interval_cases n; rfl
  | succ f ih =>
    intro n hn
    match n with
    | 0 => rfl
    | n + 1 =>
      have hdiv : (n + 1) / 10 ≤ f := by
        have h1 : (n + 1) / 10 ≤ n := Nat.lt_succ_iff.mp (Nat.div_lt_self (Nat.succ_pos n) (by norm_num))
        omega
      simp only [natDigitsAux, ofDig, ih _ hdiv]
      omega

theorem natDigitsAux_digits_lt (f : Nat) : ∀ n, ∀ d ∈ natDigitsAux f n, d < 10 := by
  induction f with
  | zero => intro n d hd; simp [natDigitsAux] at hd
  | succ f ih =>
    intro n d hd
    match n with
    | 0 => simp [natDigitsAux] at hd
    | n + 1 =>
      simp only [natDigitsAux, List.mem_cons] at hd
      rcases hd with h | h
      · subst h; exact Nat.mod_lt _ (by norm_num)
      · exact ih _ _ h

theorem charDigitVal_digitChar {d : Nat} (hd : d < 10) : charDigitVal (digitChar d) = d := by
  interval_cases d <;> rfl

/-- Decode a decimal character string back to its value (left inverse of `natStr`). -/
def charsToNat (s : Chars) : Nat :=
  ofDig (s.reverse.map charDigitVal)

theorem charsToNat_natStr (n : Nat) : charsToNat (natStr n) = n := by
  by_cases h : n = 0
  · subst h; rfl
  · have hlt := natDigitsAux_digits_lt n n
    unfold charsToNat natStr
    rw [if_neg h]
    have e1 : ((natDigitsAux n n).reverse.map digitChar).reverse
        = (natDigitsAux n n).map digitChar := by
      rw [List.map_reverse, List.reverse_reverse]
    rw [e1, List.map_map]
    have e2 : (natDigitsAux n n).map (charDigitVal ∘ digitChar) = natDigitsAux n n := by
      have := List.map_congr_left (l := natDigitsAux n n)
        (f := charDigitVal ∘ digitChar) (g := id)
        (fun d hd => charDigitVal_digitChar (hlt d hd))
      rwa [List.map_id] at this
    rw [e2]
    exact ofDig_natDigitsAux n n le_rfl

theorem natStr_injective : Function.Injective natStr := by
  intro a b h
  have := charsToNat_natStr a
  rw [h, charsToNat_natStr] at this
  exact this.symm

/-- For positive `n`, `natStr n` starts with a nonzero digit character. -/
theorem natStr_head_ne_zero (n : Nat) (hn : 1 ≤ n) :
    ∃ c t, natStr n = c :: t ∧ c ≠ '0' := by
  -- the digit list of a positive number ends in its (nonzero) leading digit
  have key : ∀ f m, 1 ≤ m → m ≤ f → ∃ l d, natDigitsAux f m = l ++ [d] ∧ d ≠ 0 ∧ d < 10 := by
    intro f
    induction f with
    | zero => intro m h1 h2; omega
    | succ f ih =>
      intro m h1 h2
      match m, h1 with
      | m + 1, _ =>
        by_cases hq : (m + 1) / 10 = 0
        · refine ⟨[], (m + 1) % 10, ?_, ?_, Nat.mod_lt _ (by norm_num)⟩
          · simp [natDigitsAux, hq, natDigitsAux_zero]
          · have h10 : m + 1 < 10 := by
              by_contra hge
              push_neg at hge
              have := (Nat.one_le_div_iff (by norm_num : 0 < 10)).mpr hge
              omega
            omega
        · have hq1 : 1 ≤ (m + 1) / 10 := Nat.pos_of_ne_zero hq
          have hqf : (m + 1) / 10 ≤ f := by
            have := Nat.div_lt_self (Nat.succ_pos m) (by norm_num : (1:Nat) < 10)
            omega
          obtain ⟨l, d, hl, hd, hd10⟩ := ih _ hq1 hqf
          exact ⟨(m + 1) % 10 :: l, d, by simp [natDigitsAux, hl], hd, hd10⟩
  obtain ⟨l, d, hl, hd, hd10⟩ := key n n hn le_rfl
  have hne : n ≠ 0 := by omega
  refine ⟨digitChar d, (l.reverse.map digitChar), ?_, ?_⟩
  · simp [natStr, if_neg hne, hl, List.reverse_append]
  · interval_cases d
    · exact absurd rfl hd
    all_goals decide

end NatStrLemmas

section IdLemmas

theorem dropWhile_zfill (w : Nat) (c : Char) (t : Chars) (hc : c ≠ '0') :
    (zfill w (c :: t)).dropWhile (fun x => x = '0') = c :: t := by
  unfold zfill
  generalize w - (c :: t).length = k
  induction k with
  | zero => simp [List.dropWhile_cons, hc]
  | succ k ih =>
    rw [List.replicate_succ, List.cons_append, List.dropWhile_cons]
    simpa using ih

theorem txnId_injOn {a b : Nat} (ha : 1 ≤ a) (hb : 1 ≤ b) (h : txnId a = txnId b) : a = b := by
  obtain ⟨ca, ta, hea, hca⟩ := natStr_head_ne_zero a ha
  obtain ⟨cb, tb, heb, hcb⟩ := natStr_head_ne_zero b hb
  unfold txnId at h
  simp only [List.cons.injEq, true_and] at h
  apply natStr_injective
  rw [hea, heb]
  have := congrArg (List.dropWhile (fun x => x = '0')) h
  rwa [hea, heb, dropWhile_zfill _ _ _ hca, dropWhile_zfill _ _ _ hcb] at this

end IdLemmas

/-! ## Rounding

Python's `round(x, 2)` rounds to 2 decimal places with round-half-to-even.
We model it on exact rationals. -/

/-- Round-half-to-even to the nearest integer. -/
def roundHE (q : ℚ) : ℤ :=
  if q - ⌊q⌋ < 1/2 then ⌊q⌋
  else if 1/2 < q - ⌊q⌋ then ⌊q⌋ + 1
  else if ⌊q⌋ % 2 = 0 then ⌊q⌋ else ⌊q⌋ + 1

/-- Python `round(q, 2)` on exact rationals. -/
def round2 (q : ℚ) : ℚ :=
  (roundHE (q * 100) : ℚ) / 100

theorem roundHE_ge_floor (q : ℚ) : ⌊q⌋ ≤ roundHE q := by
  unfold roundHE
  split
  · exact le_rfl
  · split
    · omega
    · split <;> omega

theorem roundHE_le_ceil (q : ℚ) : roundHE q ≤ ⌈q⌉ := by
  unfold roundHE
  have hfc : ⌈q⌉ ≤ ⌊q⌋ + 1 := Int.ceil_le_floor_add_one q
  split
  · exact Int.floor_le_ceil q
  · rename_i h1
    push_neg at h1
    have hne : (⌈q⌉ : ℚ) ≠ ⌊q⌋ := by
      intro hcontra
      have : ⌈q⌉ = ⌊q⌋ := by exact_mod_cast hcontra
      have hfl := Int.floor_le q
      have hcl := Int.le_ceil q
      rw [this] at hcl
      have : q = ⌊q⌋ := le_antisymm (by exact_mod_cast hcl) (by exact_mod_cast hfl)
      rw [this] at h1
      simp at h1
      linarith
    have : ⌊q⌋ + 1 ≤ ⌈q⌉ := by
      rcases lt_or_eq_of_le (Int.floor_le_ceil q) with h | h
      · omega
      · exact absurd (by exact_mod_cast h.symm) hne
    split
    · omega
    · split <;> omega

theorem round2_bounds {a b : ℤ} {q : ℚ} (h1 : (a : ℚ) ≤ q * 100) (h2 : q * 100 ≤ (b : ℚ)) :
    (a : ℚ) / 100 ≤ round2 q ∧ round2 q ≤ (b : ℚ) / 100 := by
  have hf : a ≤ ⌊q * 100⌋ := Int.le_floor.mpr h1
  have hc : ⌈q * 100⌉ ≤ b := Int.ceil_le.mpr h2
  have hlo : a ≤ roundHE (q * 100) := le_trans hf (roundHE_ge_floor _)
  have hhi : roundHE (q * 100) ≤ b := le_trans (roundHE_le_ceil _) hc
  unfold round2
  constructor
  · apply div_le_div_of_nonneg_right ?_ (by norm_num)
    exact_mod_cast hlo
  · apply div_le_div_of_nonneg_right ?_ (by norm_num)
    exact_mod_cast hhi

/-! ## Kernel-computable rationals

Python floats are modelled as exact rationals.  Mathlib's `ℚ` is not
reliably evaluable inside `decide` (its arithmetic is `@[irreducible]`),
so the embedding computes with `Q`: a numerator/denominator pair kept in
canonical reduced form by an explicit `Nat.gcd` normalization.  `toRat`
maps into `ℚ`, where all order-theoretic reasoning happens. -/

structure Q where
  num : Int
  den : Nat
deriving DecidableEq

namespace Q

/-- Canonical form: positive denominator, coprime numerator/denominator. -/
def Reduced (a : Q) : Prop := 0 < a.den ∧ a.num.natAbs.gcd a.den = 1

/-- Normalize a fraction (0/1 for the junk case `d = 0`). -/
def norm (n : Int) (d : Nat) : Q :=
  if d = 0 then ⟨0, 1⟩
  else
    let g := n.natAbs.gcd d
    ⟨n / (g : Int), d / g⟩

def ofInt (n : Int) : Q := ⟨n, 1⟩

def add (a b : Q) : Q := norm (a.num * b.den + b.num * a.den) (a.den * b.den)

def sub (a b : Q) : Q := norm (a.num * b.den - b.num * a.den) (a.den * b.den)

def mul (a b : Q) : Q := norm (a.num * b.num) (a.den * b.den)

def neg (a : Q) : Q := ⟨-a.num, a.den⟩

/-- `⌊a⌋` (Int division by a positive denominator floors). -/
def floor (a : Q) : Int := a.num / (a.den : Int)

def lt (a b : Q) : Prop := a.num * (b.den : Int) < b.num * (a.den : Int)

def le (a b : Q) : Prop := a.num * (b.den : Int) ≤ b.num * (a.den : Int)

instance : LT Q := ⟨Q.lt⟩
instance : LE Q := ⟨Q.le⟩

instance (a b : Q) : Decidable (a < b) :=
  inferInstanceAs (Decidable (a.num * (b.den : Int) < b.num * (a.den : Int)))

instance (a b : Q) : Decidable (a ≤ b) :=
  inferInstanceAs (Decidable (a.num * (b.den : Int) ≤ b.num * (a.den : Int)))

instance : Inhabited Q := ⟨⟨0, 1⟩⟩

/-- The value of a `Q` in `ℚ`. -/
def toRat (a : Q) : ℚ := (a.num : ℚ) / (a.den : ℚ)

theorem norm_spec (n : Int) (d : Nat) (hd : d ≠ 0) :
    Reduced (norm n d) ∧ toRat (norm n d) = (n : ℚ) / (d : ℚ) := by
  unfold norm
  rw [if_neg hd]
  set g := n.natAbs.gcd d with hgdef
  have hg0 : 0 < g := Nat.gcd_pos_of_pos_right _ (Nat.pos_of_ne_zero hd)
  have hdvd_n : ((g : Nat) : Int) ∣ n := by
    rw [hgdef]
    exact Int.dvd_natAbs.mp (Int.natCast_dvd_natCast.mpr (Nat.gcd_dvd_left _ _))
  obtain ⟨m, hm⟩ := hdvd_n
  have hdvd_d : g ∣ d := by
    rw [hgdef]
    exact Nat.gcd_dvd_right _ _
  obtain ⟨e, he⟩ := hdvd_d
  have he0 : e ≠ 0 := by
    rintro rfl
    simp at he
    exact hd he
  have hgZ : ((g : Nat) : Int) ≠ 0 := by exact_mod_cast hg0.ne'
  have hn : n / ((g : Nat) : Int) = m := by
    rw [hm]
    exact Int.mul_ediv_cancel_left m hgZ
  have hd2 : d / g = e := by
    rw [he]
    exact Nat.mul_div_cancel_left e hg0
  have hmabs : n.natAbs = g * m.natAbs := by
    rw [hm, Int.natAbs_mul, Int.natAbs_ofNat]
  have hcop : m.natAbs.gcd e = 1 := by
    have key : g * (m.natAbs.gcd e) = g * 1 := by
      rw [Nat.mul_one]
      calc g * (m.natAbs.gcd e)
          = (g * m.natAbs).gcd (g * e) := (Nat.gcd_mul_left _ _ _).symm
        _ = n.natAbs.gcd d := by rw [← hmabs, ← he]
        _ = g := hgdef.symm
    exact Nat.eq_of_mul_eq_mul_left hg0 key
  refine ⟨⟨?_, ?_⟩, ?_⟩
  · show 0 < d / g
    rw [hd2]
    exact Nat.pos_of_ne_zero he0
  · show (n / ((g : Nat) : Int)).natAbs.gcd (d / g) = 1
    rw [hn, hd2]
    exact hcop
  · show ((n / ((g : Nat) : Int) : Int) : ℚ) / ((d / g : Nat) : ℚ) = (n : ℚ) / (d : ℚ)
    rw [hn, hd2, hm, he]
    have hgQ : ((g : Nat) : ℚ) ≠ 0 := by exact_mod_cast hg0.ne'
    push_cast
    rw [mul_div_mul_left _ _ hgQ]

theorem norm_reduced (n : Int) (d : Nat) : Reduced (norm n d) := by
  by_cases hd : d = 0
  · subst hd
    exact ⟨Nat.one_pos, Nat.gcd_one_right _⟩
  · exact (norm_spec n d hd).1

theorem toRat_norm {n : Int} {d : Nat} (hd : d ≠ 0) :
    toRat (norm n d) = (n : ℚ) / (d : ℚ) := (norm_spec n d hd).2

theorem reduced_den_pos {a : Q} (h : Reduced a) : a.den ≠ 0 := h.1.ne'

theorem ofInt_reduced (n : Int) : Reduced (ofInt n) := ⟨Nat.one_pos, Nat.gcd_one_right _⟩

theorem toRat_ofInt (n : Int) : toRat (ofInt n) = (n : ℚ) := by
  simp [toRat, ofInt]

theorem add_reduced (a b : Q) : Reduced (add a b) := norm_reduced _ _

theorem sub_reduced (a b : Q) : Reduced (sub a b) := norm_reduced _ _

theorem mul_reduced (a b : Q) : Reduced (mul a b) := norm_reduced _ _

theorem neg_reduced {a : Q} (h : Reduced a) : Reduced (neg a) := by
  exact ⟨h.1, by rw [neg, Int.natAbs_neg]; exact h.2⟩

theorem toRat_add {a b : Q} (ha : a.den ≠ 0) (hb : b.den ≠ 0) :
    toRat (add a b) = toRat a + toRat b := by
  unfold add
  rw [toRat_norm (Nat.mul_ne_zero ha hb)]
  unfold toRat
  have haQ : (a.den : ℚ) ≠ 0 := Nat.cast_ne_zero.mpr ha
  have hbQ : (b.den : ℚ) ≠ 0 := Nat.cast_ne_zero.mpr hb
  push_cast
  field_simp

theorem toRat_sub {a b : Q} (ha : a.den ≠ 0) (hb : b.den ≠ 0) :
    toRat (sub a b) = toRat a - toRat b := by
  unfold sub
  rw [toRat_norm (Nat.mul_ne_zero ha hb)]
  unfold toRat
  have haQ : (a.den : ℚ) ≠ 0 := Nat.cast_ne_zero.mpr ha
  have hbQ : (b.den : ℚ) ≠ 0 := Nat.cast_ne_zero.mpr hb
  push_cast
  field_simp
  ring

theorem toRat_mul {a b : Q} (ha : a.den ≠ 0) (hb : b.den ≠ 0) :
    toRat (mul a b) = toRat a * toRat b := by
  unfold mul
  rw [toRat_norm (Nat.mul_ne_zero ha hb)]
  unfold toRat
  have haQ : (a.den : ℚ) ≠ 0 := Nat.cast_ne_zero.mpr ha
  have hbQ : (b.den : ℚ) ≠ 0 := Nat.cast_ne_zero.mpr hb
  push_cast
  field_simp

theorem toRat_neg (a : Q) : toRat (neg a) = -toRat a := by
  unfold toRat neg
  push_cast
  ring

theorem lt_iff {a b : Q} (ha : 0 < a.den) (hb : 0 < b.den) :
    a < b ↔ toRat a < toRat b := by
  show Q.lt a b ↔ _
  unfold Q.lt toRat
  have haQ : (0 : ℚ) < a.den := by exact_mod_cast ha
  have hbQ : (0 : ℚ) < b.den := by exact_mod_cast hb
  rw [div_lt_div_iff haQ hbQ]
  exact_mod_cast Iff.rfl

theorem le_iff {a b : Q} (ha : 0 < a.den) (hb : 0 < b.den) :
    a ≤ b ↔ toRat a ≤ toRat b := by
  show Q.le a b ↔ _
  unfold Q.le toRat
  have haQ : (0 : ℚ) < a.den := by exact_mod_cast ha
  have hbQ : (0 : ℚ) < b.den := by exact_mod_cast hb
  rw [div_le_div_iff haQ hbQ]
  exact_mod_cast Iff.rfl

theorem floor_toRat (a : Q) : floor a = ⌊toRat a⌋ := by
  unfold floor toRat
  exact (Rat.floor_intCast_div_natCast a.num a.den).symm

theorem neg_den (a : Q) : (neg a).den = a.den := rfl

theorem le_iff_not_lt {a b : Q} : a ≤ b ↔ ¬ b < a := by
  show Q.le a b ↔ ¬ Q.lt b a
  unfold Q.le Q.lt
  omega

theorem le_trans_mid {a b c : Q} (hb : 0 < b.den) (h1 : a ≤ b) (h2 : b ≤ c) :
    a ≤ c := by
  have h1' : a.num * (b.den : Int) ≤ b.num * a.den := h1
  have h2' : b.num * (c.den : Int) ≤ c.num * b.den := h2
  show a.num * (c.den : Int) ≤ c.num * a.den
  have hdb : (0 : Int) < b.den := by exact_mod_cast hb
  have t1 := mul_le_mul_of_nonneg_right h1' (Int.ofNat_nonneg c.den)
  have t2 := mul_le_mul_of_nonneg_right h2' (Int.ofNat_nonneg a.den)
  have t3 : (b.den : Int) * (a.num * c.den) ≤ (b.den : Int) * (c.num * a.den) := by
    nlinarith [t1, t2]
  exact le_of_mul_le_mul_left t3 hdb

/-- Round-half-to-even on `Q` (mirrors `roundHE` on `ℚ`). -/
def roundHE (a : Q) : Int :=
  if sub a (ofInt a.floor) < norm 1 2 then a.floor
  else if norm 1 2 < sub a (ofInt a.floor) then a.floor + 1
  else if a.floor % 2 = 0 then a.floor else a.floor + 1

/-- Python `round(q, 2)` on `Q`. -/
def round2 (a : Q) : Q := norm (roundHE (mul a (ofInt 100))) 100

theorem toRat_half : toRat (norm 1 2) = 1/2 := by
  rw [toRat_norm (by norm_num)]
  norm_num

theorem roundHE_toRat {a : Q} (ha : a.den ≠ 0) :
    roundHE a = FinGen.roundHE (toRat a) := by
  unfold roundHE FinGen.roundHE
  rw [floor_toRat a]
  have hfr : toRat (sub a (ofInt ⌊toRat a⌋)) = toRat a - ⌊toRat a⌋ := by
    rw [toRat_sub ha (by simp [ofInt]), toRat_ofInt]
  have hsr := sub_reduced a (ofInt ⌊toRat a⌋)
  have hhr := norm_reduced 1 (2 : Nat)
  by_cases h1 : toRat a - ⌊toRat a⌋ < 1/2
  · rw [if_pos (show sub a (ofInt ⌊toRat a⌋) < norm 1 2 by
        rw [lt_iff hsr.1 hhr.1, hfr, toRat_half]; exact h1), if_pos h1]
  · rw [if_neg (show ¬ sub a (ofInt ⌊toRat a⌋) < norm 1 2 by
        rw [lt_iff hsr.1 hhr.1, hfr, toRat_half]; exact h1), if_neg h1]
    by_cases h2 : 1/2 < toRat a - ⌊toRat a⌋
    · rw [if_pos (show norm 1 2 < sub a (ofInt ⌊toRat a⌋) by
          rw [lt_iff hhr.1 hsr.1, toRat_half, hfr]; exact h2), if_pos h2]
    · rw [if_neg (show ¬ norm 1 2 < sub a (ofInt ⌊toRat a⌋) by
          rw [lt_iff hhr.1 hsr.1, toRat_half, hfr]; exact h2), if_neg h2]

theorem round2_toRat {a : Q} (ha : a.den ≠ 0) :
    toRat (round2 a) = FinGen.round2 (toRat a) := by
  unfold round2 FinGen.round2
  rw [toRat_norm (by norm_num)]
  rw [roundHE_toRat (reduced_den_pos (mul_reduced a (ofInt 100)))]
  rw [toRat_mul ha (by simp [ofInt]), toRat_ofInt]
  norm_num

theorem round2_reduced (a : Q) : Reduced (round2 a) := norm_reduced _ _

theorem ext_reduced {a b : Q} (ha : Reduced a) (hb : Reduced b)
    (h : toRat a = toRat b) : a = b := by
  have ea : toRat a = (⟨a.num, a.den, reduced_den_pos ha, ha.2⟩ : ℚ) := by
    rw [Rat.mk'_eq_divInt, Rat.divInt_eq_div]
    rfl
  have eb : toRat b = (⟨b.num, b.den, reduced_den_pos hb, hb.2⟩ : ℚ) := by
    rw [Rat.mk'_eq_divInt, Rat.divInt_eq_div]
    rfl
  rw [ea, eb] at h
  have hnum : a.num = b.num := congrArg Rat.num h
  have hden : a.den = b.den := congrArg Rat.den h
  cases a
  cases b
  simp only at hnum hden
  simp [hnum, hden]

end Q

/-! ## Values, records, and the random oracle -/

/-- A Python value held in a record field: `None`, a string, or a number.
The script never stores other types in records. -/
inductive Value where
  | none : Value
  | str : Chars → Value
  | num : Q → Value
deriving DecidableEq

instance : Inhabited Value := ⟨Value.none⟩

/-- One CSV record (line 203 / 362 of the source): the 12 fields, each
possibly corrupted. -/
structure Record where
  transaction_id : Value
  timestamp : Value
  customer_id : Value
  account_number : Value
  transaction_type : Value
  amount : Value
  currency : Value
  balance_after : Value
  status : Value
  merchant : Value
  category : Value
  location : Value
deriving DecidableEq

instance : Inhabited Record :=
  ⟨⟨.none, .none, .none, .none, .none, .none, .none, .none, .none, .none, .none, .none⟩⟩

/-- Ghost (pre-corruption) data of one synthesized transaction: the local
variables `account_number`, `amount` and `round(current_balance, 2)` of the
source, recorded for specification purposes. -/
structure PureTx where
  account : Chars
  amount : Q
  balAfter : Q
deriving DecidableEq

instance : Inhabited PureTx := ⟨⟨[], Q.ofInt 0, Q.ofInt 0⟩⟩

/-- The pseudo-random source: the stream of `random.random()`-level draws in
program order. `random.seed(42)` fixes one such stream; the embedding is
parametric in it. -/
def Oracle := Nat → Q

/-- Every draw of a real `random.Random` stream is a well-formed rational
in `[0, 1)`. -/
def Oracle.Valid (o : Oracle) : Prop :=
  ∀ n, 0 < (o n).den ∧ 0 ≤ (o n).toRat ∧ (o n).toRat < 1

/-- Index `⌊u * n⌋` used to model `random.randrange(n)`, `random.randint`
and `random.choice` (one underlying draw each). -/
def floorIdx (u : Q) (n : Nat) : Nat := (Q.floor (Q.mul u (Q.ofInt n))).toNat

theorem floorIdx_lt {u : Q} {n : Nat} (hd : 0 < u.den) (h1 : u.toRat < 1)
    (hn : 0 < n) : floorIdx u n < n := by
  unfold floorIdx
  rw [Q.floor_toRat, Q.toRat_mul hd.ne' (by norm_num [Q.ofInt]), Q.toRat_ofInt]
  have hlt : u.toRat * n < n := by
    have hnq : (0:ℚ) < n := by exact_mod_cast hn
    nlinarith
  have hf : ⌊u.toRat * ((n : Int) : ℚ)⌋ < (n : ℤ) := Int.floor_lt.mpr (by push_cast; exact hlt)
  omega

/-- `random.choice(arr)` modelled as one draw. -/
def choiceD (l : List Chars) (u : Q) : Chars := l.getD (floorIdx u l.length) []

/-- The constant lists of the source. -/
def TRANSACTION_TYPES : List Chars :=
  ["deposit", "withdrawal", "transfer", "payment", "refund", "fee", "interest"].map
    String.toList

def CATEGORIES : List Chars :=
  ["groceries", "dining", "entertainment", "utilities", "housing", "transportation",
   "healthcare", "education", "shopping", "travel", "charity", "income", "investment",
   "savings", "insurance", "taxes", "miscellaneous"].map String.toList

def CURRENCIES : List Chars :=
  ["USD", "USD", "USD", "USD", "USD", "EUR", "GBP", "CAD", "JPY", "AUD"].map String.toList

def STATUSES : List Chars :=
  ["completed", "pending", "failed", "disputed", "reversed"].map String.toList

def MERCHANTS : List Chars :=
  ["Amazon", "Walmart", "Target", "Costco", "Whole Foods", "Uber", "Uber Eats",
   "DoorDash", "Spotify", "Netflix", "AT&T", "Verizon", "Comcast", "PG&E",
   "Chevron", "Shell", "CVS", "Walgreens", "Starbucks", "McDonalds",
   "Home Depot", "Lowes", "Apple", "Best Buy", "Direct Deposit - Employer",
   "Venmo", "PayPal", "Zelle", "Chase", "Bank of America", "Wells Fargo",
   "American Express", "Visa", "Mastercard", "Southwest Airlines",
   "Delta Airlines", "Airbnb", "Hilton Hotels", "Marriott Hotels"].map String.toList

def LOCATIONS : List Chars :=
  ["New York, NY", "Los Angeles, CA", "Chicago, IL", "Houston, TX", "Phoenix, AZ",
   "Philadelphia, PA", "San Antonio, TX", "San Diego, CA", "Dallas, TX", "San Jose, CA",
   "Austin, TX", "Jacksonville, FL", "Fort Worth, TX", "Columbus, OH", "Charlotte, NC",
   "San Francisco, CA", "Indianapolis, IN", "Seattle, WA", "Denver, CO", "Boston, MA",
   "Online", "Mobile App", "ATM", "Phone Banking", "Branch"].map String.toList

def asciiLowercase : Chars :=
  ['a','b','c','d','e','f','g','h','i','j','k','l','m',
   'n','o','p','q','r','s','t','u','v','w','x','y','z']

/-! ## Number/string conversions used by the corruptor and the mutator -/

/-- Python `str(x)` for a nonnegative float holding an exact multiple of
1/100 (the only numbers the script stringifies): integer part, a dot, and
the shortest fractional rendering (one digit when the hundredths digit is
0, matching the shortest-round-trip repr of such floats). -/
def pyFloatStrNonneg (q : Q) : Chars :=
  let m := (Q.floor (Q.mul q (Q.ofInt 100))).toNat
  let d := m % 100
  natStr (m / 100) ++ '.' ::
    (if d % 10 = 0 then [digitChar (d / 10)] else [digitChar (d / 10), digitChar (d % 10)])

/-- Python `str(x)` for a float holding an exact multiple of 1/100. -/
def pyFloatStr (q : Q) : Chars :=
  if q < Q.ofInt 0 then '-' :: pyFloatStrNonneg (Q.neg q) else pyFloatStrNonneg q

/-- Python `s.isdigit()` (ASCII digits; empty string is not a digit string). -/
def pyIsDigit (s : Chars) : Bool := !s.isEmpty && s.all (·.isDigit)

/-- Python `s.replace('.', '', 1)`: remove the first dot. -/
def removeFirstDot : Chars → Chars
  | [] => []
  | c :: t => if c = '.' then t else c :: removeFirstDot t

/-- Python `float(s)` on the strings this script can produce: optional
sign, digits, optional dot, digits. `Option.none` models `ValueError`. -/
def parseUnsignedFloat (s : Chars) : Option Q :=
  let ip := s.takeWhile (·.isDigit)
  let rest := s.dropWhile (·.isDigit)
  match rest with
  | [] => if ip.isEmpty then Option.none else some (Q.ofInt (charsToNat ip))
  | '.' :: fp =>
      if fp.all (·.isDigit) && !(ip.isEmpty && fp.isEmpty) then
        some (Q.add (Q.ofInt (charsToNat ip)) (Q.norm (charsToNat fp) (10 ^ fp.length)))
      else Option.none
  | _ => Option.none

def parseFloat (s : Chars) : Option Q :=
  match s with
  | '-' :: rest => (parseUnsignedFloat rest).map Q.neg
  | '+' :: rest => parseUnsignedFloat rest
  | _ => parseUnsignedFloat s

/-! ## The value corruptor (`maybe_corrupt`, source lines 82–107)

The Python dispatches on thresholds over `error_type` in an `elif` chain;
a branch whose extra type conditions fail falls through to the NEXT `elif`
test, which is why a "string mutation" draw on a number still gets
stringified by the `error_type < 0.8` branch. -/

/-- One character replaced by a random lowercase letter (lines 92–93). -/
def stringMutate (s : Chars) (upos ulet : Q) : Chars :=
  let pos := floorIdx upos s.length
  let c := asciiLowercase.getD (floorIdx ulet 26) 'a'
  s.take pos ++ c :: s.drop (min (pos + 1) s.length)

/-- `maybe_corrupt(value, error_rate)`: returns the (possibly corrupted)
value and the next oracle position. -/
def maybe_corrupt (o : Oracle) (p : Nat) (v : Value) (rate : Q) : Value × Nat :=
  if o p < rate then
    let e := o (p + 1)
    if e < Q.norm 3 10 then
      (if o (p + 2) < Q.norm 1 2 then Value.none else Value.str [], p + 3)
    else
      match v with
      | Value.str s =>
          if e < Q.norm 6 10 ∧ s ≠ [] then
            (Value.str (stringMutate s (o (p + 2)) (o (p + 3))), p + 4)
          else if e < Q.norm 8 10 then
            if pyIsDigit (removeFirstDot s) then (Value.str (s ++ ['x']), p + 2)
            else (v, p + 2)
          else (v, p + 2)
      | Value.num q =>
          if e < Q.norm 8 10 then (Value.str (pyFloatStr q), p + 2)
          else (Value.num (if o (p + 2) < Q.norm 1 2 then Q.mul q (Q.ofInt 1000)
                           else Q.neg q), p + 3)
      | Value.none => (v, p + 2)
  else (v, p + 1)

/-! ## The balance ledger (`account_balances`, a Python dict) -/

/-- The ledger: account number → current running balance, as an
insertion-ordered association list (Python dict semantics for the
operations the script uses: membership, read, write, `.get`). -/
abbrev Ledger := List (Chars × Q)

def lookupQ (m : Ledger) (k : Chars) : Option Q :=
  (m.find? (fun e => e.1 = k)).map (·.2)

def lookupD (m : Ledger) (k : Chars) (d : Q) : Q := (lookupQ m k).getD d

/-- `m[k] = v`: replace in place, or append a new key. -/
def setEntry (m : Ledger) (k : Chars) (v : Q) : Ledger :=
  match m with
  | [] => [(k, v)]
  | e :: rest => if e.1 = k then (k, v) :: rest else e :: setEntry rest k v

theorem lookupQ_cons (e : Chars × Q) (rest : Ledger) (x : Chars) :
    lookupQ (e :: rest) x = if e.1 = x then some e.2 else lookupQ rest x := by
  by_cases h : e.1 = x
  · simp [lookupQ, List.find?_cons_of_pos, h]
  · simp [lookupQ, List.find?_cons_of_neg, h]

theorem lookupQ_setEntry (m : Ledger) (k : Chars) (v : Q) (x : Chars) :
    lookupQ (setEntry m k v) x = if x = k then some v else lookupQ m x := by
  induction m with
  | nil =>
    by_cases hx : x = k
    · subst hx; simp [setEntry, lookupQ_cons]
    · have hkx : ¬ k = x := fun h => hx h.symm
      simp [setEntry, lookupQ_cons, hx, hkx, lookupQ]
  | cons e rest ih =>
    by_cases he : e.1 = k
    · by_cases hx : x = k
      · subst hx; simp [setEntry, he, lookupQ_cons]
      · have hkx : ¬ k = x := fun h => hx h.symm
        have hex : ¬ e.1 = x := by rw [he]; exact hkx
        simp [setEntry, he, lookupQ_cons, hx, hex, hkx]
    · simp only [setEntry, if_neg he]
      by_cases hex : e.1 = x
      · have hx : ¬ x = k := fun h => he (by rw [hex, h])
        simp [lookupQ_cons, hex, hx]
      · simp [lookupQ_cons, hex, ih]

theorem lookupQ_append_single (m : Ledger) (k : Chars) (v : Q) (x : Chars) :
    lookupQ (m ++ [(k, v)]) x =
      match lookupQ m x with
      | some w => some w
      | Option.none => if x = k then some v else Option.none := by
  induction m with
  | nil =>
    by_cases hx : x = k
    · subst hx; simp [lookupQ_cons, lookupQ]
    · have hkx : ¬ k = x := fun h => hx h.symm
      simp [lookupQ_cons, lookupQ, hx, hkx]
  | cons e rest ih =>
    by_cases hex : e.1 = x
    · simp [List.cons_append, lookupQ_cons, hex]
    · simp [List.cons_append, lookupQ_cons, hex, ih]

/-! ## Dates and timestamps

`random_date` draws a day offset and a second offset (two draws); the
resulting `datetime` is rendered by `format_date` via `strftime`.  The
calendar rendering is incidental library formatting: we model the
timestamp string injectively by day count (since 2023-01-01) and seconds;
no claim depends on its exact text, only on it being a non-numeric,
non-empty string, which this encoding preserves. -/
def dateStr (day sec : Nat) : Chars :=
  natStr day ++ '-' :: natStr sec

/-- `format_date(random_date(start, end))`: `daysBetween` is
`(end_date - start_date).days`, `dayBase` the day number of `start_date`. -/
def random_date (o : Oracle) (p : Nat) (daysBetween dayBase : Nat) : Chars × Nat :=
  let d := floorIdx (o p) daysBetween
  let s := floorIdx (o (p + 1)) 86400
  (dateStr (dayBase + d) s, p + 2)

/-- A date window: `(daysBetween, dayBase)`. Initial data uses
(364, 0) — 2023-01-01 to 2023-12-31; file `i` of the subsequent files uses
(14 + 15·i, 365) — 2024-01-01 to 2024-01-15 + 15·i days. -/
abbrev DateWin := Nat × Nat

/-! ## Transaction synthesis (shared verbatim by `generate_initial_data`
lines 158–218 and `generate_subsequent_files` lines 317–377) -/

/-- Amount by transaction type (lines 167–175 / 326–334). The fallback
consumes two draws (magnitude then sign). -/
def amountFor (o : Oracle) (p : Nat) (ty : Chars) : Q × Nat :=
  if ty ∈ (["deposit", "refund", "interest"].map String.toList) then
    (Q.round2 (Q.add (Q.mul (o p) (Q.ofInt 2000)) (Q.ofInt 10)), p + 1)
  else if ty ∈ (["withdrawal", "payment", "transfer"].map String.toList) then
    (Q.round2 (Q.sub (Q.neg (Q.mul (o p) (Q.ofInt 1000))) (Q.ofInt 10)), p + 1)
  else if ty = String.toList "fee" then
    (Q.round2 (Q.sub (Q.neg (Q.mul (o p) (Q.ofInt 50))) (Q.ofInt 1)), p + 1)
  else
    (Q.round2 (Q.mul (Q.mul (o p) (Q.ofInt 1000))
      (if o (p + 1) < Q.norm 1 2 then Q.ofInt 1 else Q.ofInt (-1))), p + 2)

/-- Merchant/category by type (lines 186–198 / 345–357): `Value.none`
models Python `None`. The deposit case consumes one draw for the 70% test. -/
def merchantFor (o : Oracle) (p : Nat) (ty : Chars) : Value × Value × Nat :=
  if ty ∈ (["payment", "refund"].map String.toList) then
    (Value.str (choiceD MERCHANTS (o p)), Value.str (choiceD CATEGORIES (o (p + 1))), p + 2)
  else if ty = String.toList "deposit" then
    if o p < Q.norm 7 10 then
      (Value.str (String.toList "Direct Deposit - Employer"), Value.str (String.toList "income"), p + 1)
    else (Value.none, Value.none, p + 1)
  else if ty = String.toList "fee" then
    (Value.str (choiceD (["Chase", "Bank of America", "Wells Fargo"].map String.toList) (o p)),
     Value.str (String.toList "fees"), p + 1)
  else (Value.none, Value.none, p)

/-- Balance fetch + update (lines 179–182 initial, 338–341 subsequent).
`lazy = true` is `get_balance`: the random initial balance is drawn (and
stored) only on a miss. `lazy = false` is
`account_balances.get(acct, 1000 + random.random() * 9000)`: the default
is evaluated eagerly, so one draw is consumed even on a hit.  Returns
`(newBalance, ledger', initLog', p')`; `initLog` records first-touch
initial balances (ghost data). -/
def applyLedger (o : Oracle) (p : Nat) (lazy : Bool) (bal initLog : Ledger)
    (acct : Chars) (amt : Q) : Q × Ledger × Ledger × Nat :=
  if lazy then
    match lookupQ bal acct with
    | some v => (Q.add v amt, setEntry bal acct (Q.add v amt), initLog, p)
    | Option.none =>
        let w := Q.add (Q.ofInt 1000) (Q.mul (o p) (Q.ofInt 9000))
        (Q.add w amt, setEntry (setEntry bal acct w) acct (Q.add w amt),
         initLog ++ [(acct, w)], p + 1)
  else
    let w := Q.add (Q.ofInt 1000) (Q.mul (o p) (Q.ofInt 9000))
    match lookupQ bal acct with
    | some v => (Q.add v amt, setEntry bal acct (Q.add v amt), initLog, p + 1)
    | Option.none =>
        (Q.add w amt, setEntry bal acct (Q.add w amt), initLog ++ [(acct, w)], p + 1)

/-- All pre-corruption fields of one synthesized record. -/
structure PureRec where
  txid : Chars
  ts : Chars
  cust : Chars
  acct : Chars
  ty : Chars
  amt : Q
  curr : Chars
  balAfter : Q
  stat : Chars
  merch : Value
  categ : Value
  loc : Chars

/-- The pure (pre-corruption) part of one record synthesis, in exact draw
order of the source: date, customer, account, type, amount, currency,
balance fetch/update, status, merchant/category, location. -/
def synthPure (o : Oracle) (win : DateWin) (lazy : Bool)
    (accounts : List (Chars × List Chars)) (customer_ids : List Chars)
    (idNum : Nat) (bal initLog : Ledger) (p : Nat) :
    PureRec × Ledger × Ledger × Nat :=
  let rd := random_date o p win.1 win.2
  let p1 := rd.2
  let cust := choiceD customer_ids (o p1)
  let acct := choiceD (((accounts.find? (fun e => e.1 = cust)).map (·.2)).getD []) (o (p1 + 1))
  let ty := choiceD TRANSACTION_TYPES (o (p1 + 2))
  let af := amountFor o (p1 + 3) ty
  let curr := choiceD CURRENCIES (o af.2)
  let al := applyLedger o (af.2 + 1) lazy bal initLog acct af.1
  let p3 := al.2.2.2
  let stat := choiceD STATUSES (o p3)
  let mc := merchantFor o (p3 + 1) ty
  let loc := choiceD LOCATIONS (o mc.2.2)
  (⟨txnId idNum, rd.1, cust, acct, ty, af.1, curr, Q.round2 al.1, stat, mc.1, mc.2.1, loc⟩,
   al.2.1, al.2.2.1, mc.2.2 + 1)

/-- The 12 `maybe_corrupt` calls of the record literal, in field order;
optional fields use `1.5 ×` the base error rate. -/
def corruptRecord (o : Oracle) (rate : Q) (r : PureRec) (p : Nat) : Record × Nat :=
  let (f1, q1) := maybe_corrupt o p (Value.str r.txid) rate
  let (f2, q2) := maybe_corrupt o q1 (Value.str r.ts) rate
  let (f3, q3) := maybe_corrupt o q2 (Value.str r.cust) rate
  let (f4, q4) := maybe_corrupt o q3 (Value.str r.acct) rate
  let (f5, q5) := maybe_corrupt o q4 (Value.str r.ty) rate
  let (f6, q6) := maybe_corrupt o q5 (Value.num r.amt) rate
  let (f7, q7) := maybe_corrupt o q6 (Value.str r.curr) rate
  let (f8, q8) := maybe_corrupt o q7 (Value.num r.balAfter) rate
  let (f9, q9) := maybe_corrupt o q8 (Value.str r.stat) rate
  let (f10, q10) := maybe_corrupt o q9 r.merch (Q.mul rate (Q.norm 3 2))
  let (f11, q11) := maybe_corrupt o q10 r.categ (Q.mul rate (Q.norm 3 2))
  let (f12, q12) := maybe_corrupt o q11 (Value.str r.loc) (Q.mul rate (Q.norm 3 2))
  (⟨f1, f2, f3, f4, f5, f6, f7, f8, f9, f10, f11, f12⟩, q12)

/-- Generation state threaded through both generator functions. -/
structure GenState where
  txns : List Record
  ghosts : List PureTx
  ids : List Chars
  bal : Ledger
  initLog : Ledger
  pos : Nat

/-- One iteration of the record-synthesis loop (body of lines 158–218 /
317–377). -/
def genOne (o : Oracle) (rate : Q) (win : DateWin) (lazy : Bool)
    (accounts : List (Chars × List Chars)) (customer_ids : List Chars)
    (idNum : Nat) (st : GenState) : GenState :=
  let s4 := synthPure o win lazy accounts customer_ids idNum st.bal st.initLog st.pos
  let rc := corruptRecord o rate s4.1 s4.2.2.2
  { txns := st.txns ++ [rc.1]
    ghosts := st.ghosts ++ [⟨s4.1.acct, s4.1.amt, s4.1.balAfter⟩]
    ids := st.ids ++ [s4.1.txid]
    bal := s4.2.1
    initLog := s4.2.2.1
    pos := rc.2 }

/-- The record-synthesis loop: `count` records, ids starting at `idNum`. -/
def genLoop (o : Oracle) (rate : Q) (win : DateWin) (lazy : Bool)
    (accounts : List (Chars × List Chars)) (customer_ids : List Chars) :
    Nat → Nat → GenState → GenState
  | 0, _, st => st
  | k + 1, idNum, st =>
      genLoop o rate win lazy accounts customer_ids k (idNum + 1)
        (genOne o rate win lazy accounts customer_ids idNum st)

/-- The 200 customer ids `CUST001001 … CUST001200` (line 111). -/
def customerIds : List Chars := (List.range 200).map (fun i => custId (i + 1001))

/-- `ACCT-{randint(10000000, 99999999)}` (lines 114–115). -/
def acctNumber (u : Q) : Chars :=
  'A' :: 'C' :: 'C' :: 'T' :: '-' :: natStr (10000000 + floorIdx u 90000000)

/-- Account generation (lines 118–121): 1 account with probability 1/2,
else 2 with probability 4/5 else 3; the second draw happens only when the
first is ≥ 1/2 (Python's conditional expression is lazy). -/
def genAccountsLoop (o : Oracle) : List Chars → Nat →
    List (Chars × List Chars) × Nat
  | [], p => ([], p)
  | c :: rest, p =>
      let (k, p1) : Nat × Nat :=
        if o p < Q.norm 1 2 then (1, p + 1)
        else if o (p + 1) < Q.norm 4 5 then (2, p + 2) else (3, p + 2)
      let nums := (List.range k).map (fun j => acctNumber (o (p1 + j)))
      let (acc, p2) := genAccountsLoop o rest (p1 + k)
      ((c, nums) :: acc, p2)

/-- `generate_initial_data` (lines 109–220): returns the account map and
the generation state (transactions, ids, ledger, ghosts, next position). -/
def generate_initial_data (o : Oracle) (rate : Q) (baseNumRecords : Nat) :
    List (Chars × List Chars) × GenState :=
  let ga := genAccountsLoop o customerIds 0
  (ga.1,
   genLoop o rate (364, 0) true ga.1 customerIds baseNumRecords 1
     ⟨[], [], [], [], [], ga.2⟩)

/-! ## The ledger mutator (`generate_subsequent_files`, lines 222–379) -/

/-- `int(len(transactions) * (UPDATE_PERCENTAGE / 100))` (line 229). -/
def numUpdates (n pct : Nat) : Nat := (Q.floor (Q.norm ((n : Int) * (pct : Int)) 100)).toNat

/-- `random.sample(range(n), k)` (line 232), modelled as `k` draws without
replacement: repeatedly pick a uniform index into the remaining pool and
remove it. -/
def sampleIdx (o : Oracle) : Nat → List Nat → Nat → List Nat × Nat
  | 0, _, p => ([], p)
  | k + 1, pool, p =>
      let j := floorIdx (o p) pool.length
      let x := pool.getD j 0
      let (rest, p') := sampleIdx o k (pool.eraseIdx j) (p + 1)
      (x :: rest, p')

/-- `a` is a prefix of `b` (Boolean). -/
def leadsWith : Chars → Chars → Bool
  | [], _ => true
  | _ :: _, [] => false
  | a :: as, b :: bs => a = b && leadsWith as bs

/-- Python's substring test `a in b`. -/
def isSubstring (needle : Chars) : Chars → Bool
  | [] => needle.isEmpty
  | c :: t => leadsWith needle (c :: t) || isSubstring needle t

/-- Transaction-id resolution (lines 248–260): `None`/empty ids are
unresolvable; unknown ids are recovered by the first known id that occurs
as a substring of the stored id (`tid in str(transaction_id)`), else
unresolvable.  A numeric stored id is compared against `str` of it. -/
def resolveId (v : Value) (known : List Chars) : Option Chars :=
  match v with
  | Value.none => Option.none
  | Value.str s =>
      if s = [] then Option.none
      else if s ∈ known then some s
      else known.find? (fun tid => isSubstring tid s)
  | Value.num q => known.find? (fun tid => isSubstring tid (pyFloatStr q))

/-- The status redraw loop (lines 264–266): redraw while the drawn status
equals the record's current status field.  Python's `while` loop can in
principle spin forever against an adversarial stream; we bound it by fuel
(irrelevant for every claim: no claim depends on the redraw count). -/
def drawStatusLoop (o : Oracle) (cur : Value) : Nat → Nat → Chars × Nat
  | 0, p => (choiceD STATUSES (o p), p + 1)
  | f + 1, p =>
      let s := choiceD STATUSES (o p)
      if Value.str s = cur then drawStatusLoop o cur f (p + 1) else (s, p + 1)

def drawStatusNe (o : Oracle) (cur : Value) (p : Nat) : Chars × Nat :=
  drawStatusLoop o cur 100 p

/-- `float(x.replace('x', ''))` applied to a record field (lines 283–284,
297–299): numbers pass through, strings are parsed after deleting every
`'x'`, `None` raises (`Option.none`). -/
def valueAsFloat : Value → Option Q
  | Value.num q => some q
  | Value.str s => parseFloat (s.filter (fun c => ¬ c = 'x'))
  | Value.none => Option.none

/-- The guard of line 278:
`isinstance(amount, str) and not amount.replace('-','').replace('.','').isdigit()`. -/
def badStrAmount : Value → Bool
  | Value.str s => ! pyIsDigit (s.filter (fun c => ¬ (c = '-' ∨ c = '.')))
  | _ => false

/-- The `account_number is None or == ""` guard (line 274).  A numeric
account field passes the guard but can never equal a string ledger key
(line 287), so the branch does nothing either way; we map it to
`Option.none` (identical observable effect). -/
def acctOk : Value → Option Chars
  | Value.str [] => Option.none
  | Value.str s => some s
  | _ => Option.none

/-- The amount-adjustment mutation (lines 269–307), entered with the draw
position just after the `update_type` draw.  Returns the (possibly
partially) updated record, ledger, and position.  The two bare `except:
pass` blocks are modelled by the `Option.none` fall-throughs. -/
def amountAdjust (o : Oracle) (rate : Q) (t : Record) (bal : Ledger) (p : Nat) :
    Record × Ledger × Nat :=
  match acctOk t.account_number with
  | Option.none => (t, bal, p)
  | some acct =>
    if badStrAmount t.amount then (t, bal, p)
    else
      match valueAsFloat t.amount with
      | Option.none => (t, bal, p)
      | some q =>
        match lookupQ bal acct with
        | Option.none => (t, bal, p)
        | some b =>
          let bal1 := setEntry bal acct (Q.sub b q)
          let newAmt := Q.round2 (Q.mul q (Q.add (Q.norm 4 5) (Q.mul (o p) (Q.norm 2 5))))
          let mc := maybe_corrupt o (p + 1) (Value.num newAmt) rate
          let t1 := { t with amount := mc.1 }
          match valueAsFloat mc.1 with
          | Option.none => (t1, bal1, mc.2)
          | some q2 =>
            let bal2 := setEntry bal1 acct (Q.add (Q.sub b q) q2)
            let bc := maybe_corrupt o mc.2 (Value.num (Q.round2 (Q.add (Q.sub b q) q2))) rate
            ({ t1 with balance_after := bc.1 }, bal2, bc.2)

/-- State of the update loop (transactions list, ledger, draw position). -/
structure UpdState where
  txns : List Record
  bal : Ledger
  pos : Nat

/-- Body of the update loop (lines 240–312) for one selected index. The
`update_type` draw happens before the id checks; a skip consumes only that
draw. -/
def updateOne (o : Oracle) (rate : Q) (ids : List Chars) (win : DateWin)
    (s : UpdState) (idx : Nat) : UpdState :=
  let u := o s.pos
  let t := s.txns.getD idx default
  match resolveId t.transaction_id ids with
  | Option.none => ⟨s.txns, s.bal, s.pos + 1⟩
  | some _ =>
    if u < Q.norm 2 5 then
      let ns := drawStatusNe o t.status (s.pos + 1)
      let sc := maybe_corrupt o ns.2 (Value.str ns.1) rate
      ⟨s.txns.set idx { t with status := sc.1 }, s.bal, sc.2⟩
    else if u < Q.norm 4 5 then
      let aa := amountAdjust o rate t s.bal (s.pos + 1)
      ⟨s.txns.set idx aa.1, aa.2.1, aa.2.2⟩
    else
      let d := random_date o (s.pos + 1) win.1 win.2
      let tc := maybe_corrupt o d.2 (Value.str d.1) rate
      ⟨s.txns.set idx { t with timestamp := tc.1 }, s.bal, tc.2⟩

def updateFold (o : Oracle) (rate : Q) (ids : List Chars) (win : DateWin)
    (idxs : List Nat) (s : UpdState) : UpdState :=
  idxs.foldl (updateOne o rate ids win) s

/-- `generate_subsequent_files` (lines 222–379): update a sample of the
inherited records in place, then append `additional` fresh records with
ids extending the global sequence. -/
def generate_subsequent_files (o : Oracle) (rate : Q) (pct additional : Nat)
    (accounts : List (Chars × List Chars)) (customer_ids : List Chars)
    (fileIndex : Nat) (st : GenState) : GenState :=
  let n := st.txns.length
  let k := numUpdates n pct
  let smp := sampleIdx o k (List.range n) st.pos
  let win : DateWin := (14 + 15 * fileIndex, 365)
  let u := updateFold o rate st.ids win smp.1 ⟨st.txns, st.bal, smp.2⟩
  genLoop o rate win false accounts customer_ids additional (st.ids.length + 1)
    { st with txns := u.txns, bal := u.bal, pos := u.pos }

/-! ## The whole run (`main`, lines 381–431) -/

/-- The module-level configuration constants (lines 12–15). -/
structure Config where
  baseNumRecords : Nat
  additionalRecordsPerFile : Nat
  updatePercentage : Nat
  errorRate : Q

/-- `BASE_NUM_RECORDS = 1000`, `ADDITIONAL_RECORDS_PER_FILE = 250`,
`UPDATE_PERCENTAGE = 30`, `ERROR_RATE = 0.05`. -/
def defaultConfig : Config := ⟨1000, 250, 30, Q.norm 1 20⟩

/-- The record content of the four output files of one run of `main`:
the initial batch split at `len // 2`, then two subsequent snapshots.
File naming and CSV serialization are incidental; the record lists are the
file contents. -/
structure RunOut where
  file1a : List Record
  file1b : List Record
  file2 : List Record
  file3 : List Record
  allIds : List Chars
  finalBal : Ledger
deriving DecidableEq

/-- `main` (minus printing and file I/O): a pure function of the seeded
random stream. -/
def mainRun (cfg : Config) (o : Oracle) : RunOut :=
  let ini := generate_initial_data o cfg.errorRate cfg.baseNumRecords
  let accounts := ini.1
  let st1 := ini.2
  let split := st1.txns.length / 2
  let st2 := generate_subsequent_files o cfg.errorRate cfg.updatePercentage
    cfg.additionalRecordsPerFile accounts customerIds 1 st1
  let st3 := generate_subsequent_files o cfg.errorRate cfg.updatePercentage
    cfg.additionalRecordsPerFile accounts customerIds 2 st2
  ⟨st1.txns.take split, st1.txns.drop split, st2.txns, st3.txns, st3.ids, st3.bal⟩

/-! ## Ledger write-back (C2) -/

/-- `applyLedger` characterized: the new balance is `c + amt` where `c` is
the fetched (or freshly drawn) prior balance; only the touched account's
ledger entry changes; the init log grows exactly on a miss. -/
theorem applyLedger_spec (o : Oracle) (p : Nat) (lazy : Bool) (bal initLog : Ledger)
    (acct : Chars) (amt : Q) :
    ∃ c, (applyLedger o p lazy bal initLog acct amt).1 = Q.add c amt ∧
      (∀ x, lookupQ (applyLedger o p lazy bal initLog acct amt).2.1 x
        = if x = acct then some (Q.add c amt) else lookupQ bal x) ∧
      ((lookupQ bal acct = some c ∧
          (applyLedger o p lazy bal initLog acct amt).2.2.1 = initLog) ∨
       (lookupQ bal acct = Option.none ∧
          (applyLedger o p lazy bal initLog acct amt).2.2.1 = initLog ++ [(acct, c)])) := by
  unfold applyLedger
  cases lazy with
  | true =>
    rcases h : lookupQ bal acct with _ | v
    · refine ⟨Q.add (Q.ofInt 1000) (Q.mul (o p) (Q.ofInt 9000)), rfl, ?_, Or.inr ⟨rfl, rfl⟩⟩
      intro x
      by_cases hx : x = acct <;> simp [lookupQ_setEntry, hx]
    · refine ⟨v, rfl, ?_, Or.inl ⟨rfl, rfl⟩⟩
      intro x
      by_cases hx : x = acct <;> simp [lookupQ_setEntry, hx, h]
  | false =>
    rcases h : lookupQ bal acct with _ | v
    · refine ⟨Q.add (Q.ofInt 1000) (Q.mul (o p) (Q.ofInt 9000)), rfl, ?_, Or.inr ⟨rfl, rfl⟩⟩
      intro x
      by_cases hx : x = acct <;> simp [lookupQ_setEntry, hx]
    · refine ⟨v, rfl, ?_, Or.inl ⟨rfl, rfl⟩⟩
      intro x
      by_cases hx : x = acct <;> simp [lookupQ_setEntry, hx, h]

/-- The ledger and ghost outputs of one synthesis step factor through
`applyLedger` at the pre-corruption account and amount. -/
theorem genOne_bal_eq (o : Oracle) (rate : Q) (win : DateWin) (lazy : Bool)
    (acc : List (Chars × List Chars)) (cids : List Chars) (idNum : Nat) (st : GenState) :
    ∃ (a : Chars) (m : Q) (p : Nat),
      (genOne o rate win lazy acc cids idNum st).bal
          = (applyLedger o p lazy st.bal st.initLog a m).2.1 ∧
      (genOne o rate win lazy acc cids idNum st).ghosts
          = st.ghosts ++ [⟨a, m, Q.round2 ((applyLedger o p lazy st.bal st.initLog a m).1)⟩] :=
  ⟨_, _, _, rfl, rfl⟩

/-- C2 (amended): every *synthesized* record (initial batch and per-file
appends) updates the ledger with its pre-corruption rounded amount — the
ghost amount — added to the fetched (or freshly initialized) balance;
corruption touches only the emitted record copy.  (The amount-adjustment
mutation, by contrast, re-credits the ledger with a value parsed from the
already-corrupted stored amount field; see the counterexample.) -/
theorem synth_ledger_precorruption (o : Oracle) (rate : Q) (win : DateWin) (lazy : Bool)
    (acc : List (Chars × List Chars)) (cids : List Chars) (idNum : Nat) (st : GenState) :
    ∃ g c, (genOne o rate win lazy acc cids idNum st).ghosts = st.ghosts ++ [g] ∧
      g.balAfter = Q.round2 (Q.add c g.amount) ∧
      (lookupQ st.bal g.account = some c ∨ lookupQ st.bal g.account = Option.none) ∧
      (∀ x, lookupQ (genOne o rate win lazy acc cids idNum st).bal x
        = if x = g.account then some (Q.add c g.amount) else lookupQ st.bal x) := by
  obtain ⟨a, m, p, hb, hg⟩ := genOne_bal_eq o rate win lazy acc cids idNum st
  obtain ⟨c, h1, h2, h3⟩ := applyLedger_spec o p lazy st.bal st.initLog a m
  refine ⟨⟨a, m, Q.round2 (Q.add c m)⟩, c, ?_, rfl, ?_, ?_⟩
  · rw [hg, h1]
  · rcases h3 with ⟨hc, _⟩ | ⟨hc, _⟩
    · exact Or.inl hc
    · exact Or.inr hc
  · intro x
    rw [hb]
    exact h2 x

/-! ## Amount-adjustment failure semantics (C3) -/

/-- C3 (amended): failures *before* any state is touched (missing/empty
account, amount failing the digit guard, amount unparsable — including
`None`, whose attempted subtraction raises before the ledger is written)
leave record and ledger fully unchanged, and no error escapes.  But when
the freshly corrupted new amount is unparsable, the mutation has already
committed the corrupted amount to the record and the debit to the ledger:
the record keeps the corrupted amount with its stale balance-after, and
the ledger entry stays at `b - q` (old amount removed, nothing re-added). -/
theorem amountAdjust_failure_semantics (o : Oracle) (rate : Q) (t : Record)
    (bal : Ledger) (p : Nat) :
    (acctOk t.account_number = Option.none → amountAdjust o rate t bal p = (t, bal, p)) ∧
    (badStrAmount t.amount = true → amountAdjust o rate t bal p = (t, bal, p)) ∧
    (valueAsFloat t.amount = Option.none → amountAdjust o rate t bal p = (t, bal, p)) ∧
    (∀ acct q b, acctOk t.account_number = some acct → badStrAmount t.amount = false →
      valueAsFloat t.amount = some q → lookupQ bal acct = some b →
      valueAsFloat (maybe_corrupt o (p + 1)
          (Value.num (Q.round2 (Q.mul q (Q.add (Q.norm 4 5) (Q.mul (o p) (Q.norm 2 5))))))
          rate).1 = Option.none →
      amountAdjust o rate t bal p =
        ({ t with amount := (maybe_corrupt o (p + 1)
              (Value.num (Q.round2 (Q.mul q (Q.add (Q.norm 4 5) (Q.mul (o p) (Q.norm 2 5))))))
              rate).1 },
         setEntry bal acct (Q.sub b q),
         (maybe_corrupt o (p + 1)
            (Value.num (Q.round2 (Q.mul q (Q.add (Q.norm 4 5) (Q.mul (o p) (Q.norm 2 5))))))
            rate).2)) := by
  refine ⟨?_, ?_, ?_, ?_⟩
  · intro h
    unfold amountAdjust
    rw [h]
  · intro h
    unfold amountAdjust
    rcases ha : acctOk t.account_number with _ | acct
    · rfl
    · dsimp only
      rw [if_pos h]
  · intro h
    unfold amountAdjust
    rcases ha : acctOk t.account_number with _ | acct
    · rfl
    · dsimp only
      by_cases hb : badStrAmount t.amount = true
      · rw [if_pos hb]
      · rw [if_neg hb, h]
  · intro acct q b ha hbad hq hb hfail
    unfold amountAdjust
    rw [ha]
    dsimp only
    rw [if_neg (by rw [hbad]; exact Bool.false_ne_true), hq]
    dsimp only
    rw [hb]
    dsimp only
    rw [hfail]

/-! ## Issued transaction ids (C6) -/

theorem genOne_ids (o : Oracle) (rate : Q) (win : DateWin) (lazy : Bool)
    (acc : List (Chars × List Chars)) (cids : List Chars) (idNum : Nat) (st : GenState) :
    (genOne o rate win lazy acc cids idNum st).ids = st.ids ++ [txnId idNum] := rfl

theorem genLoop_ids (o : Oracle) (rate : Q) (win : DateWin) (lazy : Bool)
    (acc : List (Chars × List Chars)) (cids : List Chars) (k : Nat) :
    ∀ idNum st, (genLoop o rate win lazy acc cids k idNum st).ids
      = st.ids ++ (List.range' idNum k).map txnId := by
  induction k with
  | zero =>
    intro idNum st
    show st.ids = st.ids ++ (List.range' idNum 0).map txnId
    simp
  | succ k ih =>
    intro idNum st
    show (genLoop o rate win lazy acc cids k (idNum + 1)
      (genOne o rate win lazy acc cids idNum st)).ids = _
    rw [ih, genOne_ids, List.range'_succ]
    simp

theorem initial_ids (o : Oracle) (rate : Q) (n : Nat) :
    (generate_initial_data o rate n).2.ids = (List.range' 1 n).map txnId := by
  unfold generate_initial_data
  rw [genLoop_ids]
  simp

theorem gsf_ids (o : Oracle) (rate : Q) (pct additional : Nat)
    (acc : List (Chars × List Chars)) (cids : List Chars) (fileIndex : Nat) (st : GenState) :
    (generate_subsequent_files o rate pct additional acc cids fileIndex st).ids
      = st.ids ++ (List.range' (st.ids.length + 1) additional).map txnId := by
  unfold generate_subsequent_files
  rw [genLoop_ids]

theorem mainRun_allIds (cfg : Config) (o : Oracle) :
    (mainRun cfg o).allIds
      = (List.range' 1 (cfg.additionalRecordsPerFile +
          (cfg.additionalRecordsPerFile + cfg.baseNumRecords))).map txnId := by
  have h1 := initial_ids o cfg.errorRate cfg.baseNumRecords
  have e : (mainRun cfg o).allIds
      = (generate_subsequent_files o cfg.errorRate cfg.updatePercentage
          cfg.additionalRecordsPerFile
          (generate_initial_data o cfg.errorRate cfg.baseNumRecords).1 customerIds 2
          (generate_subsequent_files o cfg.errorRate cfg.updatePercentage
            cfg.additionalRecordsPerFile
            (generate_initial_data o cfg.errorRate cfg.baseNumRecords).1 customerIds 1
            (generate_initial_data o cfg.errorRate cfg.baseNumRecords).2)).ids := rfl
  rw [e, gsf_ids, gsf_ids, h1]
  rw [List.length_map, List.length_range']
  rw [List.length_append, List.length_map, List.length_map,
    List.length_range', List.length_range']
  rw [← List.map_append, ← List.map_append]
  congr 1
  have e1 : cfg.baseNumRecords + 1 = 1 + cfg.baseNumRecords := by omega
  have r1 := List.range'_append 1 cfg.baseNumRecords cfg.additionalRecordsPerFile 1
  simp only [Nat.one_mul, Nat.mul_one] at r1
  rw [e1, r1]
  have e2 : cfg.baseNumRecords + cfg.additionalRecordsPerFile + 1
      = 1 + (cfg.additionalRecordsPerFile + cfg.baseNumRecords) := by omega
  have r2 := List.range'_append 1 (cfg.additionalRecordsPerFile + cfg.baseNumRecords)
    cfg.additionalRecordsPerFile 1
  simp only [Nat.one_mul, Nat.mul_one] at r2
  rw [e2, r2]

/-! ## Concrete streams used in witnesses and counterexamples -/

/-- The all-zero draw stream. -/
def zo : Oracle := fun _ => Q.ofInt 0

theorem zo_valid : Oracle.Valid zo :=
  fun _ => ⟨Nat.one_pos, by norm_num [zo, Q.toRat_ofInt], by norm_num [zo, Q.toRat_ofInt]⟩

/-- Stream hitting the corruption branch (draw 1: 0.01 < 0.05) and then the
string-mutation variant zone (draw 2: 0.4 ∈ [0.3, 0.6)). -/
def oC4 : Oracle := fun n =>
  if n = 0 then Q.norm 1 100 else if n = 1 then Q.norm 2 5 else Q.ofInt 0

/-- A well-formed uncorrupted record on account "A" with amount 10 and
balance-after 1010. -/
def recC : Record :=
  ⟨Value.str (String.toList "TXN00000001"),
   Value.str (String.toList "2023-01-01 00:00:00"),
   Value.str (String.toList "CUST001001"),
   Value.str (String.toList "A"),
   Value.str (String.toList "payment"),
   Value.num (Q.ofInt 10),
   Value.str (String.toList "USD"),
   Value.num (Q.ofInt 1010),
   Value.str (String.toList "completed"),
   Value.none, Value.none,
   Value.str (String.toList "Online")⟩

/-- Prior state with the single record `recC`, its issued id, and a ledger
carrying balance 1010 on account "A". -/
def stC : GenState :=
  ⟨[recC], [], [String.toList "TXN00000001"], [(String.toList "A", Q.ofInt 1010)], [], 0⟩

/-- Stream driving one amount-adjustment mutation of `recC` whose
`maybe_corrupt` lands in the magnitude-distortion branch (×1000): draw 1
selects the amount branch (0.5), draw 3 fires corruption (0.01 < 0.05),
draw 4 picks the extreme branch (0.9), draw 5 picks ×1000. -/
def oC2 : Oracle := fun n =>
  if n = 1 then Q.norm 1 2 else if n = 3 then Q.norm 1 100
  else if n = 4 then Q.norm 9 10 else if n = 6 then Q.norm 1 2 else Q.ofInt 0

/-- Stream driving one amount-adjustment mutation of `recC` whose
`maybe_corrupt` nullifies the new amount: draw 1 selects the amount branch
(0.5), draw 3 fires corruption (0.01 < 0.05), draws 4–5 select `None`. -/
def oC3 : Oracle := fun n =>
  if n = 1 then Q.norm 1 2 else if n = 3 then Q.norm 1 100 else Q.ofInt 0

/-! ## Basic corruptor lemmas -/

/-- When the corruption trial fails (draw ≥ rate), the value is unchanged
and exactly one draw is consumed. -/
theorem maybe_corrupt_miss {o : Oracle} {p : Nat} {rate : Q} (v : Value)
    (h : ¬ o p < rate) : maybe_corrupt o p v rate = (v, p + 1) := by
  unfold maybe_corrupt
  rw [if_neg h]

/-- With a valid stream and error rate 0, `maybe_corrupt` is the identity. -/
theorem maybe_corrupt_zero {o : Oracle} (ho : Oracle.Valid o) (p : Nat) (v : Value) :
    maybe_corrupt o p v (Q.ofInt 0) = (v, p + 1) :=
  maybe_corrupt_miss v (by
    intro hlt
    have h := (Q.lt_iff (ho p).1 (by norm_num [Q.ofInt])).mp hlt
    rw [Q.toRat_ofInt] at h
    have h0 := (ho p).2.1
    push_cast at h
    linarith)

/-- `maybe_corrupt` on a number, with the `elif` chain resolved. -/
theorem maybe_corrupt_num_eq (o : Oracle) (p : Nat) (q : Q) (rate : Q) :
    maybe_corrupt o p (Value.num q) rate =
      if o p < rate then
        if o (p + 1) < Q.norm 3 10 then
          (if o (p + 2) < Q.norm 1 2 then Value.none else Value.str [], p + 3)
        else if o (p + 1) < Q.norm 8 10 then (Value.str (pyFloatStr q), p + 2)
        else (Value.num (if o (p + 2) < Q.norm 1 2 then Q.mul q (Q.ofInt 1000)
                         else Q.neg q), p + 3)
      else (Value.num q, p + 1) := by
  unfold maybe_corrupt
  by_cases h : o p < rate <;> simp [h]

/-- `maybe_corrupt` on a string, with the `elif` chain resolved. -/
theorem maybe_corrupt_str_eq (o : Oracle) (p : Nat) (s : Chars) (rate : Q) :
    maybe_corrupt o p (Value.str s) rate =
      if o p < rate then
        if o (p + 1) < Q.norm 3 10 then
          (if o (p + 2) < Q.norm 1 2 then Value.none else Value.str [], p + 3)
        else if o (p + 1) < Q.norm 6 10 ∧ s ≠ [] then
          (Value.str (stringMutate s (o (p + 2)) (o (p + 3))), p + 4)
        else if o (p + 1) < Q.norm 8 10 then
          if pyIsDigit (removeFirstDot s) then (Value.str (s ++ ['x']), p + 2)
          else (Value.str s, p + 2)
        else (Value.str s, p + 2)
      else (Value.str s, p + 1) := by
  unfold maybe_corrupt
  by_cases h : o p < rate <;> simp [h]

/-- `maybe_corrupt` on `None`, with the `elif` chain resolved. -/
theorem maybe_corrupt_none_eq (o : Oracle) (p : Nat) (rate : Q) :
    maybe_corrupt o p Value.none rate =
      if o p < rate then
        if o (p + 1) < Q.norm 3 10 then
          (if o (p + 2) < Q.norm 1 2 then Value.none else Value.str [], p + 3)
        else (Value.none, p + 2)
      else (Value.none, p + 1) := by
  unfold maybe_corrupt
  by_cases h : o p < rate <;> simp [h]

/-! ## Claim theorems -/

/-- C10: corrupting an absent value (`None`) yields `None` or the empty
string, for every rate, stream and position: an absent optional field is
never replaced by an invented non-empty value. -/
theorem corrupt_absent_stays_absent (o : Oracle) (p : Nat) (rate : Q) :
    (maybe_corrupt o p Value.none rate).1 = Value.none ∨
    (maybe_corrupt o p Value.none rate).1 = Value.str [] := by
  rw [maybe_corrupt_none_eq]
  by_cases h1 : o p < rate
  · rw [if_pos h1]
    by_cases h2 : o (p + 1) < Q.norm 3 10
    · rw [if_pos h2]
      by_cases h3 : o (p + 2) < Q.norm 1 2
      · rw [if_pos h3]; left; rfl
      · rw [if_neg h3]; right; rfl
    · rw [if_neg h2]; left; rfl
  · rw [if_neg h1]; left; rfl

/-- C4 (amended): when the corruption branch fires, an inapplicable variant
draw falls through the `elif` chain rather than passing the value through:
a string-mutation draw (or any draw in `[0.3, 0.8)`) on a number stringifies
it; the value passes unchanged only when no branch at or after the drawn
threshold applies — `None` with any draw ≥ 0.3, a non-numeric-looking
string with a draw in `[0.6, 0.8)`, or any string with a draw ≥ 0.8. -/
theorem corrupt_fallthrough (o : Oracle) (p : Nat) (rate : Q) (v : Value)
    (hr : o p < rate) :
    (∀ q, v = Value.num q → Q.norm 3 10 ≤ o (p + 1) → o (p + 1) < Q.norm 8 10 →
        maybe_corrupt o p v rate = (Value.str (pyFloatStr q), p + 2)) ∧
    (v = Value.none → Q.norm 3 10 ≤ o (p + 1) →
        maybe_corrupt o p v rate = (Value.none, p + 2)) ∧
    (∀ s, v = Value.str s → Q.norm 6 10 ≤ o (p + 1) → o (p + 1) < Q.norm 8 10 →
        pyIsDigit (removeFirstDot s) = false →
        maybe_corrupt o p v rate = (v, p + 2)) ∧
    (∀ s, v = Value.str s → Q.norm 8 10 ≤ o (p + 1) →
        maybe_corrupt o p v rate = (v, p + 2)) := by
  refine ⟨?_, ?_, ?_, ?_⟩
  · rintro q rfl h1 h2
    rw [maybe_corrupt_num_eq, if_pos hr, if_neg (Q.le_iff_not_lt.mp h1), if_pos h2]
  · rintro rfl h1
    rw [maybe_corrupt_none_eq, if_pos hr, if_neg (Q.le_iff_not_lt.mp h1)]
  · rintro s rfl h1 h2 hdig
    have h36 : Q.norm 3 10 ≤ o (p + 1) :=
      Q.le_trans_mid (by decide) (by decide) h1
    rw [maybe_corrupt_str_eq, if_pos hr, if_neg (Q.le_iff_not_lt.mp h36),
      if_neg (fun hc : _ ∧ _ => Q.le_iff_not_lt.mp h1 hc.1), if_pos h2,
      if_neg (by simp [hdig])]
  · rintro s rfl h1
    have h36 : Q.norm 3 10 ≤ o (p + 1) :=
      Q.le_trans_mid (by decide) (by decide) h1
    have h68 : Q.norm 6 10 ≤ o (p + 1) :=
      Q.le_trans_mid (by decide) (by decide) h1
    rw [maybe_corrupt_str_eq, if_pos hr, if_neg (Q.le_iff_not_lt.mp h36),
      if_neg (fun hc : _ ∧ _ => Q.le_iff_not_lt.mp h68 hc.1),
      if_neg (Q.le_iff_not_lt.mp h1)]

theorem corrupt_fallthrough_witness :
    oC4 0 < defaultConfig.errorRate ∧ Q.norm 3 10 ≤ oC4 1 ∧ oC4 1 < Q.norm 8 10 ∧
    maybe_corrupt oC4 0 (Value.num (Q.ofInt 5)) defaultConfig.errorRate
      = (Value.str (pyFloatStr (Q.ofInt 5)), 2) := by
  have h0 : oC4 0 < defaultConfig.errorRate := by decide
  have h1 : Q.norm 3 10 ≤ oC4 1 := by decide
  have h2 : oC4 1 < Q.norm 8 10 := by decide
  exact ⟨h0, h1, h2, (corrupt_fallthrough oC4 0 _ _ h0).1 (Q.ofInt 5) rfl h1 h2⟩

/-- C4 counterexample: the corruption branch fires (draw 0.01 < 0.05), the
variant draw 0.4 lands in the string-mutation zone `[0.3, 0.6)`, the value
5 is numeric so that variant does not apply — yet the value is changed
(stringified to "5.0"), not returned unchanged. -/
theorem corrupt_fallthrough_counterexample :
    oC4 0 < defaultConfig.errorRate ∧ Q.norm 3 10 ≤ oC4 1 ∧ oC4 1 < Q.norm 6 10 ∧
    (maybe_corrupt oC4 0 (Value.num (Q.ofInt 5)) defaultConfig.errorRate).1
      ≠ Value.num (Q.ofInt 5) := by
  decide

/-- C9: pre-corruption amount ranges (after rounding to 2 decimals) by
transaction type: fee in [-51, -1]; deposit/refund/interest in [10, 2010];
withdrawal/payment/transfer in [-1010, -10]. -/
theorem amount_range_by_type (o : Oracle) (p : Nat) (ty : Chars) (ho : Oracle.Valid o) :
    (ty = String.toList "fee" →
      Q.ofInt (-51) ≤ (amountFor o p ty).1 ∧ (amountFor o p ty).1 ≤ Q.ofInt (-1)) ∧
    (ty ∈ (["deposit", "refund", "interest"].map String.toList) →
      Q.ofInt 10 ≤ (amountFor o p ty).1 ∧ (amountFor o p ty).1 ≤ Q.ofInt 2010) ∧
    (ty ∈ (["withdrawal", "payment", "transfer"].map String.toList) →
      Q.ofInt (-1010) ≤ (amountFor o p ty).1 ∧ (amountFor o p ty).1 ≤ Q.ofInt (-10)) := by
  obtain ⟨hud, hu0, hu1⟩ := ho p
  have conc : ∀ (X : Q) (lo hi : Int), X.den ≠ 0 →
      ((lo : ℚ) ≤ round2 (Q.toRat X)) → (round2 (Q.toRat X) ≤ (hi : ℚ)) →
      Q.ofInt lo ≤ Q.round2 X ∧ Q.round2 X ≤ Q.ofInt hi := by
    intro X lo hi hX hlo hhi
    constructor
    · rw [Q.le_iff (by norm_num [Q.ofInt]) (Q.round2_reduced X).1, Q.toRat_ofInt,
        Q.round2_toRat hX]
      exact hlo
    · rw [Q.le_iff (Q.round2_reduced X).1 (by norm_num [Q.ofInt]), Q.toRat_ofInt,
        Q.round2_toRat hX]
      exact hhi
  refine ⟨?_, ?_, ?_⟩
  · rintro rfl
    have e : amountFor o p (String.toList "fee")
        = (Q.round2 (Q.sub (Q.neg (Q.mul (o p) (Q.ofInt 50))) (Q.ofInt 1)), p + 1) := by
      unfold amountFor
      rw [if_neg (by decide), if_neg (by decide), if_pos rfl]
    rw [e]
    have hnd : (Q.neg (Q.mul (o p) (Q.ofInt 50))).den ≠ 0 := by
      rw [Q.neg_den]
      exact Q.reduced_den_pos (Q.mul_reduced _ _)
    have hXden : (Q.sub (Q.neg (Q.mul (o p) (Q.ofInt 50))) (Q.ofInt 1)).den ≠ 0 :=
      Q.reduced_den_pos (Q.sub_reduced _ _)
    have hXval : Q.toRat (Q.sub (Q.neg (Q.mul (o p) (Q.ofInt 50))) (Q.ofInt 1))
        = -(Q.toRat (o p)) * 50 - 1 := by
      rw [Q.toRat_sub hnd (by norm_num [Q.ofInt]), Q.toRat_neg,
        Q.toRat_mul hud.ne' (by norm_num [Q.ofInt]), Q.toRat_ofInt, Q.toRat_ofInt]
      ring
    have hb := round2_bounds (a := -5100) (b := -100)
      (q := Q.toRat (Q.sub (Q.neg (Q.mul (o p) (Q.ofInt 50))) (Q.ofInt 1)))
      (by rw [hXval]; push_cast; nlinarith) (by rw [hXval]; push_cast; nlinarith)
    have e1 : ((-5100 : ℤ) : ℚ) / 100 = ((-51 : Int) : ℚ) := by norm_num
    have e2 : ((-100 : ℤ) : ℚ) / 100 = ((-1 : Int) : ℚ) := by norm_num
    rw [e1, e2] at hb
    exact conc _ (-51) (-1) hXden hb.1 hb.2
  · intro hmem
    have e : amountFor o p ty
        = (Q.round2 (Q.add (Q.mul (o p) (Q.ofInt 2000)) (Q.ofInt 10)), p + 1) := by
      unfold amountFor
      rw [if_pos hmem]
    rw [e]
    have hXden : (Q.add (Q.mul (o p) (Q.ofInt 2000)) (Q.ofInt 10)).den ≠ 0 :=
      Q.reduced_den_pos (Q.add_reduced _ _)
    have hXval : Q.toRat (Q.add (Q.mul (o p) (Q.ofInt 2000)) (Q.ofInt 10))
        = Q.toRat (o p) * 2000 + 10 := by
      rw [Q.toRat_add (Q.reduced_den_pos (Q.mul_reduced _ _)) (by norm_num [Q.ofInt]),
        Q.toRat_mul hud.ne' (by norm_num [Q.ofInt]), Q.toRat_ofInt, Q.toRat_ofInt]
      push_cast
      ring
    have hb := round2_bounds (a := 1000) (b := 201000)
      (q := Q.toRat (Q.add (Q.mul (o p) (Q.ofInt 2000)) (Q.ofInt 10)))
      (by rw [hXval]; push_cast; nlinarith) (by rw [hXval]; push_cast; nlinarith)
    have e1 : ((1000 : ℤ) : ℚ) / 100 = ((10 : Int) : ℚ) := by norm_num
    have e2 : ((201000 : ℤ) : ℚ) / 100 = ((2010 : Int) : ℚ) := by norm_num
    rw [e1, e2] at hb
    exact conc _ 10 2010 hXden hb.1 hb.2
  · intro hmem
    have e : amountFor o p ty
        = (Q.round2 (Q.sub (Q.neg (Q.mul (o p) (Q.ofInt 1000))) (Q.ofInt 10)), p + 1) := by
      simp only [List.map, List.mem_cons, List.not_mem_nil, or_false] at hmem
      rcases hmem with rfl | rfl | rfl <;>
        (unfold amountFor; rw [if_neg (by decide), if_pos (by decide)])
    rw [e]
    have hnd : (Q.neg (Q.mul (o p) (Q.ofInt 1000))).den ≠ 0 := by
      rw [Q.neg_den]
      exact Q.reduced_den_pos (Q.mul_reduced _ _)
    have hXden : (Q.sub (Q.neg (Q.mul (o p) (Q.ofInt 1000))) (Q.ofInt 10)).den ≠ 0 :=
      Q.reduced_den_pos (Q.sub_reduced _ _)
    have hXval : Q.toRat (Q.sub (Q.neg (Q.mul (o p) (Q.ofInt 1000))) (Q.ofInt 10))
        = -(Q.toRat (o p)) * 1000 - 10 := by
      rw [Q.toRat_sub hnd (by norm_num [Q.ofInt]), Q.toRat_neg,
        Q.toRat_mul hud.ne' (by norm_num [Q.ofInt]), Q.toRat_ofInt, Q.toRat_ofInt]
      ring
    have hb := round2_bounds (a := -101000) (b := -1000)
      (q := Q.toRat (Q.sub (Q.neg (Q.mul (o p) (Q.ofInt 1000))) (Q.ofInt 10)))
      (by rw [hXval]; push_cast; nlinarith) (by rw [hXval]; push_cast; nlinarith)
    have e1 : ((-101000 : ℤ) : ℚ) / 100 = ((-1010 : Int) : ℚ) := by norm_num
    have e2 : ((-1000 : ℤ) : ℚ) / 100 = ((-10 : Int) : ℚ) := by norm_num
    rw [e1, e2] at hb
    exact conc _ (-1010) (-10) hXden hb.1 hb.2

theorem amount_range_by_type_witness :
    Oracle.Valid zo ∧
    (Q.ofInt (-51) ≤ (amountFor zo 0 (String.toList "fee")).1 ∧
      (amountFor zo 0 (String.toList "fee")).1 ≤ Q.ofInt (-1)) :=
  ⟨zo_valid, (amount_range_by_type zo 0 (String.toList "fee") zo_valid).1 rfl⟩

/-- C5: the whole run is a deterministic function of the seeded random
stream — two runs over equal streams produce identical record content in
every corresponding output file. -/
theorem run_deterministic (cfg : Config) (a b : Oracle) (h : ∀ n, a n = b n) :
    mainRun cfg a = mainRun cfg b := by
  have e : a = b := funext h
  rw [e]

theorem run_deterministic_witness :
    (∀ n, zo n = zo n) ∧ mainRun defaultConfig zo = mainRun defaultConfig zo :=
  ⟨fun _ => rfl, run_deterministic defaultConfig zo zo (fun _ => rfl)⟩

/-- C2 counterexample: mutating `recC`'s amount, the corruptor distorts the
new amount 8 to 8000; the ledger is then re-credited with the corrupted
8000 (final entry 1010 − 10 + 8000 = 9000), not with the pre-corruption
rounded amount 8 (which would give 1008): corruptor output is stored in
the ledger. -/
theorem mutation_ledger_corrupted_counterexample :
    Q.round2 (Q.mul (Q.ofInt 10) (Q.add (Q.norm 4 5) (Q.mul (oC2 2) (Q.norm 2 5))))
      = Q.ofInt 8 ∧
    ((generate_subsequent_files oC2 (Q.norm 1 20) 100 0 [] [] 1 stC).txns.getD 0
      default).amount = Value.num (Q.ofInt 8000) ∧
    lookupQ (generate_subsequent_files oC2 (Q.norm 1 20) 100 0 [] [] 1 stC).bal
      (String.toList "A") = some (Q.ofInt 9000) ∧
    Q.add (Q.sub (Q.ofInt 1010) (Q.ofInt 10)) (Q.ofInt 8000) = Q.ofInt 9000 ∧
    Q.add (Q.sub (Q.ofInt 1010) (Q.ofInt 10)) (Q.ofInt 8) = Q.ofInt 1008 ∧
    Q.ofInt 9000 ≠ Q.ofInt 1008 := by
  decide

/-- C3 counterexample: mutating `recC`'s amount, the corruptor nullifies
the new amount; parsing the stored (`None`) amount then fails — yet the
record's amount field has already been changed to `None` (balance-after
left stale at 1010) and the ledger stays debited at 1000: a partial update
is committed despite the failure. -/
theorem mutation_partial_commit_counterexample :
    valueAsFloat ((generate_subsequent_files oC3 (Q.norm 1 20) 100 0 [] [] 1 stC).txns.getD 0
      default).amount = Option.none ∧
    ((generate_subsequent_files oC3 (Q.norm 1 20) 100 0 [] [] 1 stC).txns.getD 0
      default).amount = Value.none ∧
    recC.amount = Value.num (Q.ofInt 10) ∧
    ((generate_subsequent_files oC3 (Q.norm 1 20) 100 0 [] [] 1 stC).txns.getD 0
      default).balance_after = Value.num (Q.ofInt 1010) ∧
    lookupQ (generate_subsequent_files oC3 (Q.norm 1 20) 100 0 [] [] 1 stC).bal
      (String.toList "A") = some (Q.ofInt 1000) ∧
    lookupQ stC.bal (String.toList "A") = some (Q.ofInt 1010) ∧
    Q.ofInt 1000 ≠ Q.ofInt 1010 := by
  decide

theorem amountAdjust_failure_semantics_witness :
    acctOk recC.account_number = some (String.toList "A") ∧
    badStrAmount recC.amount = false ∧
    valueAsFloat recC.amount = some (Q.ofInt 10) ∧
    lookupQ [(String.toList "A", Q.ofInt 1010)] (String.toList "A") = some (Q.ofInt 1010) ∧
    valueAsFloat (maybe_corrupt oC3 3
      (Value.num (Q.round2 (Q.mul (Q.ofInt 10)
        (Q.add (Q.norm 4 5) (Q.mul (oC3 2) (Q.norm 2 5)))))) (Q.norm 1 20)).1
      = Option.none ∧
    amountAdjust oC3 (Q.norm 1 20) recC [(String.toList "A", Q.ofInt 1010)] 2 =
      ({ recC with amount := (maybe_corrupt oC3 3
            (Value.num (Q.round2 (Q.mul (Q.ofInt 10)
              (Q.add (Q.norm 4 5) (Q.mul (oC3 2) (Q.norm 2 5)))))) (Q.norm 1 20)).1 },
       setEntry [(String.toList "A", Q.ofInt 1010)] (String.toList "A")
         (Q.sub (Q.ofInt 1010) (Q.ofInt 10)),
       (maybe_corrupt oC3 3
          (Value.num (Q.round2 (Q.mul (Q.ofInt 10)
            (Q.add (Q.norm 4 5) (Q.mul (oC3 2) (Q.norm 2 5)))))) (Q.norm 1 20)).2) := by
  have h1 : acctOk recC.account_number = some (String.toList "A") := by decide
  have h2 : badStrAmount recC.amount = false := by decide
  have h3 : valueAsFloat recC.amount = some (Q.ofInt 10) := by decide
  have h4 : lookupQ [(String.toList "A", Q.ofInt 1010)] (String.toList "A")
      = some (Q.ofInt 1010) := by decide
  have h5 : valueAsFloat (maybe_corrupt oC3 (2 + 1)
      (Value.num (Q.round2 (Q.mul (Q.ofInt 10)
        (Q.add (Q.norm 4 5) (Q.mul (oC3 2) (Q.norm 2 5)))))) (Q.norm 1 20)).1
      = Option.none := by decide
  exact ⟨h1, h2, h3, h4, h5,
    (amountAdjust_failure_semantics oC3 (Q.norm 1 20) recC
        [(String.toList "A", Q.ofInt 1010)] 2).2.2.2
      (String.toList "A") (Q.ofInt 10) (Q.ofInt 1010) h1 h2 h3 h4 h5⟩

/-- C6 (amended): the issued transaction-id sequence (`all_transaction_ids`
after a full run) is pairwise distinct — ids are handed out sequentially
and never reissued, so every newly generated record gets a fresh id.
(Later files re-emit earlier records under their existing ids, and a stored
id field can additionally be corrupted, so distinct *emitted* records can
share an id field; see the counterexample.) -/
theorem issued_ids_nodup (cfg : Config) (o : Oracle) : (mainRun cfg o).allIds.Nodup := by
  rw [mainRun_allIds]
  apply List.Nodup.map_on
  · intro x hx y hy hxy
    obtain ⟨i, hi, rfl⟩ := List.mem_range'.mp hx
    obtain ⟨j, hj, rfl⟩ := List.mem_range'.mp hy
    exact txnId_injOn (by omega) (by omega) hxy
  · exact List.nodup_range' _ _

/-- Configuration for the C6 counterexample: one base record, no appends,
no updates, no corruption. -/
def cfgOneRec : Config := ⟨1, 0, 0, Q.ofInt 0⟩

/-- C6 counterexample: the second initial file and the first delta file
each emit one record (two distinct emitted records, in different files),
and both records carry the same transaction-id field `TXN00000001` — a
delta file re-emits every inherited record under its existing id, so
transaction-id fields are not pairwise distinct across emitted records. -/
theorem emitted_ids_clash_counterexample :
    (mainRun cfgOneRec zo).file1b.length = 1 ∧ (mainRun cfgOneRec zo).file2.length = 1 ∧
    ((mainRun cfgOneRec zo).file1b.getD 0 default).transaction_id
      = ((mainRun cfgOneRec zo).file2.getD 0 default).transaction_id ∧
    ((mainRun cfgOneRec zo).file1b.getD 0 default).transaction_id
      = Value.str (String.toList "TXN00000001") := by
  decide

/-! ## Record counts (C7) -/

theorem genOne_txns_length (o : Oracle) (rate : Q) (win : DateWin) (lazy : Bool)
    (acc : List (Chars × List Chars)) (cids : List Chars) (idNum : Nat) (st : GenState) :
    (genOne o rate win lazy acc cids idNum st).txns.length = st.txns.length + 1 := by
  simp [genOne]

theorem genLoop_txns_length (o : Oracle) (rate : Q) (win : DateWin) (lazy : Bool)
    (acc : List (Chars × List Chars)) (cids : List Chars) (k : Nat) :
    ∀ idNum st, (genLoop o rate win lazy acc cids k idNum st).txns.length
      = st.txns.length + k := by
  induction k with
  | zero => intro idNum st; rfl
  | succ k ih =>
    intro idNum st
    show (genLoop o rate win lazy acc cids k (idNum + 1)
      (genOne o rate win lazy acc cids idNum st)).txns.length = st.txns.length + (k + 1)
    rw [ih, genOne_txns_length]
    omega

theorem updateOne_txns_length (o : Oracle) (rate : Q) (ids : List Chars) (win : DateWin)
    (s : UpdState) (idx : Nat) :
    (updateOne o rate ids win s idx).txns.length = s.txns.length := by
  simp only [updateOne]
  rcases h : resolveId (s.txns.getD idx default).transaction_id ids with _ | t
  · rfl
  · by_cases h1 : o s.pos < Q.norm 2 5
    · simp [h1]
    · by_cases h2 : o s.pos < Q.norm 4 5 <;> simp [h1, h2]

theorem updateFold_txns_length (o : Oracle) (rate : Q) (ids : List Chars) (win : DateWin)
    (idxs : List Nat) : ∀ s : UpdState,
    (updateFold o rate ids win idxs s).txns.length = s.txns.length := by
  unfold updateFold
  induction idxs with
  | nil => intro s; rfl
  | cons i rest ih =>
    intro s
    simp only [List.foldl_cons]
    rw [ih, updateOne_txns_length]

theorem gsf_txns_length (o : Oracle) (rate : Q) (pct additional : Nat)
    (acc : List (Chars × List Chars)) (cids : List Chars) (fileIndex : Nat) (st : GenState) :
    (generate_subsequent_files o rate pct additional acc cids fileIndex st).txns.length
      = st.txns.length + additional := by
  unfold generate_subsequent_files
  rw [genLoop_txns_length]
  simp [updateFold_txns_length]

theorem initial_txns_length (o : Oracle) (rate : Q) (n : Nat) :
    (generate_initial_data o rate n).2.txns.length = n := by
  unfold generate_initial_data
  rw [genLoop_txns_length]
  simp

/-- C7: the two initial files' record counts sum to the configured base
count; each subsequent file has exactly the previous snapshot's count plus
the configured per-file addition (updating records in place never changes
the count). -/
theorem file_record_counts (cfg : Config) (o : Oracle) :
    (mainRun cfg o).file1a.length + (mainRun cfg o).file1b.length = cfg.baseNumRecords ∧
    (mainRun cfg o).file2.length = cfg.baseNumRecords + cfg.additionalRecordsPerFile ∧
    (mainRun cfg o).file3.length
      = (mainRun cfg o).file2.length + cfg.additionalRecordsPerFile := by
  have hbase := initial_txns_length o cfg.errorRate cfg.baseNumRecords
  refine ⟨?_, ?_, ?_⟩
  · have h1a : (mainRun cfg o).file1a
        = (generate_initial_data o cfg.errorRate cfg.baseNumRecords).2.txns.take
          ((generate_initial_data o cfg.errorRate cfg.baseNumRecords).2.txns.length / 2) := rfl
    have h1b : (mainRun cfg o).file1b
        = (generate_initial_data o cfg.errorRate cfg.baseNumRecords).2.txns.drop
          ((generate_initial_data o cfg.errorRate cfg.baseNumRecords).2.txns.length / 2) := rfl
    rw [h1a, h1b]
    simp only [List.length_take, List.length_drop, hbase]
    omega
  · show (generate_subsequent_files _ _ _ _ _ _ _ _).txns.length = _
    rw [gsf_txns_length, hbase]
  · show (generate_subsequent_files _ _ _ _ _ _ _ _).txns.length
      = (generate_subsequent_files _ _ _ _ _ _ _ _).txns.length + _
    rw [gsf_txns_length]


/-! ## Mutation skip semantics (C8) -/

/-- A skipped record (unresolvable id) leaves the whole update state
unchanged except for the consumed `update_type` draw (line 242 precedes
the id checks). -/
theorem updateOne_skip (o : Oracle) (rate : Q) (ids : List Chars) (win : DateWin)
    (s : UpdState) (idx : Nat)
    (h : resolveId (s.txns.getD idx default).transaction_id ids = Option.none) :
    updateOne o rate ids win s idx = ⟨s.txns, s.bal, s.pos + 1⟩ := by
  simp only [updateOne]
  rw [h]

/-- An update step at index `i` never touches the record at a different
index `idx`. -/
theorem updateOne_getD_other (o : Oracle) (rate : Q) (ids : List Chars) (win : DateWin)
    (s : UpdState) (i idx : Nat) (hne : i ≠ idx) :
    (updateOne o rate ids win s i).txns.getD idx default = s.txns.getD idx default := by
  have hset : ∀ (r : Record), (s.txns.set i r).getD idx default
      = s.txns.getD idx default := by
    intro r
    rw [List.getD_eq_getElem?_getD, List.getD_eq_getElem?_getD, List.getElem?_set_ne hne]
  simp only [updateOne]
  rcases h : resolveId ((s.txns.getD i default)).transaction_id ids with _ | t
  · rfl
  · by_cases h1 : o s.pos < Q.norm 2 5
    · rw [if_pos h1]
      exact hset _
    · by_cases h2 : o s.pos < Q.norm 4 5
      · rw [if_neg h1, if_pos h2]
        exact hset _
      · rw [if_neg h1, if_neg h2]
        exact hset _

/-- Through the whole update pass, a record whose stored id is
unresolvable is never modified. -/
theorem updateFold_skip_getD (o : Oracle) (rate : Q) (ids : List Chars) (win : DateWin)
    (idxs : List Nat) : ∀ (s : UpdState) (idx : Nat),
    resolveId (s.txns.getD idx default).transaction_id ids = Option.none →
    (updateFold o rate ids win idxs s).txns.getD idx default
      = s.txns.getD idx default := by
  unfold updateFold
  induction idxs with
  | nil =>
    intro s idx _
    rfl
  | cons i rest ih =>
    intro s idx h
    simp only [List.foldl_cons]
    by_cases he : i = idx
    · subst he
      rw [updateOne_skip o rate ids win s i h]
      exact ih ⟨s.txns, s.bal, s.pos + 1⟩ i h
    · have hg := updateOne_getD_other o rate ids win s i idx he
      rw [ih (updateOne o rate ids win s i) idx (by rw [hg]; exact h), hg]

/-- The synthesis loop only appends records. -/
theorem genLoop_txns_prefix (o : Oracle) (rate : Q) (win : DateWin) (lazy : Bool)
    (acc : List (Chars × List Chars)) (cids : List Chars) (k : Nat) :
    ∀ idNum st, ∃ tl, (genLoop o rate win lazy acc cids k idNum st).txns
      = st.txns ++ tl := by
  induction k with
  | zero =>
    intro idNum st
    exact ⟨[], by simp [genLoop]⟩
  | succ k ih =>
    intro idNum st
    obtain ⟨tl, htl⟩ := ih (idNum + 1) (genOne o rate win lazy acc cids idNum st)
    have hg : (genOne o rate win lazy acc cids idNum st).txns
        = st.txns ++ [(corruptRecord o rate
            (synthPure o win lazy acc cids idNum st.bal st.initLog st.pos).1
            (synthPure o win lazy acc cids idNum st.bal st.initLog st.pos).2.2.2).1] := rfl
    refine ⟨[(corruptRecord o rate
        (synthPure o win lazy acc cids idNum st.bal st.initLog st.pos).1
        (synthPure o win lazy acc cids idNum st.bal st.initLog st.pos).2.2.2).1] ++ tl, ?_⟩
    show (genLoop o rate win lazy acc cids k (idNum + 1)
      (genOne o rate win lazy acc cids idNum st)).txns = _
    rw [htl, hg, List.append_assoc]

/-- C8: mutation-time id resolution and skipping — a `None` or empty
stored id is unresolvable; a known (non-empty) stored id resolves to
itself; an unknown non-empty string id is recovered by the first known id
occurring as a substring of it, if any; an unresolvable record is skipped
with no change to any record or the ledger; and through a whole
subsequent-file generation an unresolvable inherited record reaches the
output file unchanged. -/
theorem mutation_skip_semantics (o : Oracle) (rate : Q) (ids : List Chars)
    (win : DateWin) (st : UpdState) (idx : Nat) (s : Chars) :
    (resolveId Value.none ids = Option.none) ∧
    (resolveId (Value.str []) ids = Option.none) ∧
    (s ≠ [] → s ∈ ids → resolveId (Value.str s) ids = some s) ∧
    (s ≠ [] → s ∉ ids → resolveId (Value.str s) ids
        = ids.find? (fun tid => isSubstring tid s)) ∧
    (resolveId (st.txns.getD idx default).transaction_id ids = Option.none →
      updateOne o rate ids win st idx = ⟨st.txns, st.bal, st.pos + 1⟩) ∧
    (∀ (gst : GenState) (pct additional fi : Nat) (acc : List (Chars × List Chars))
        (cids : List Chars),
      idx < gst.txns.length →
      resolveId (gst.txns.getD idx default).transaction_id gst.ids = Option.none →
      (generate_subsequent_files o rate pct additional acc cids fi gst).txns.getD idx
          default
        = gst.txns.getD idx default) := by
  refine ⟨rfl, rfl, ?_, ?_, ?_, ?_⟩
  · intro hne hmem
    simp only [resolveId]
    rw [if_neg hne, if_pos hmem]
  · intro hne hmem
    simp only [resolveId]
    rw [if_neg hne, if_neg hmem]
  · exact updateOne_skip o rate ids win st idx
  · intro gst pct additional fi acc cids hlen hres
    obtain ⟨u, hu⟩ : ∃ u, updateFold o rate gst.ids (14 + 15 * fi, 365)
        (sampleIdx o (numUpdates gst.txns.length pct)
          (List.range gst.txns.length) gst.pos).1
        ⟨gst.txns, gst.bal,
         (sampleIdx o (numUpdates gst.txns.length pct)
           (List.range gst.txns.length) gst.pos).2⟩ = u := ⟨_, rfl⟩
    have e : generate_subsequent_files o rate pct additional acc cids fi gst
        = genLoop o rate (14 + 15 * fi, 365) false acc cids additional
            (gst.ids.length + 1)
            { gst with txns := u.txns, bal := u.bal, pos := u.pos } := by
      rw [← hu]
      rfl
    obtain ⟨tl, htl⟩ := genLoop_txns_prefix o rate (14 + 15 * fi, 365) false acc cids
      additional (gst.ids.length + 1)
      { gst with txns := u.txns, bal := u.bal, pos := u.pos }
    have hskip : u.txns.getD idx default = gst.txns.getD idx default := by
      rw [← hu]
      exact updateFold_skip_getD o rate gst.ids (14 + 15 * fi, 365) _
        ⟨gst.txns, gst.bal, _⟩ idx hres
    have hulen : u.txns.length = gst.txns.length := by
      rw [← hu]
      exact updateFold_txns_length o rate gst.ids _ _ ⟨gst.txns, gst.bal, _⟩
    have hlen2 : idx < u.txns.length := by
      rw [hulen]
      exact hlen
    rw [e, htl]
    show (u.txns ++ tl).getD idx default = gst.txns.getD idx default
    rw [List.getD_append _ _ _ _ hlen2]
    exact hskip

/-- A record whose transaction-id field was nullified by corruption. -/
def recN : Record := { recC with transaction_id := Value.none }

/-- Prior state holding only `recN`, with no issued ids. -/
def gstN : GenState :=
  ⟨[recN], [], [], [(String.toList "A", Q.ofInt 1010)], [], 0⟩

theorem mutation_skip_semantics_witness :
    (String.toList "TXN00000001" ∈ [String.toList "TXN00000001"] ∧
      resolveId (Value.str (String.toList "TXN00000001")) [String.toList "TXN00000001"]
        = some (String.toList "TXN00000001")) ∧
    (resolveId (gstN.txns.getD 0 default).transaction_id gstN.ids = Option.none ∧
      0 < gstN.txns.length ∧
      (generate_subsequent_files zo (Q.ofInt 0) 100 0 [] [] 1 gstN).txns.getD 0 default
        = gstN.txns.getD 0 default) :=
  ⟨⟨by decide,
    (mutation_skip_semantics zo (Q.ofInt 0) [String.toList "TXN00000001"] (0, 0)
        ⟨[], [], 0⟩ 0 (String.toList "TXN00000001")).2.2.1 (by decide) (by decide)⟩,
   ⟨by decide, by decide,
    (mutation_skip_semantics zo (Q.ofInt 0) [String.toList "TXN00000001"] (0, 0)
        ⟨[], [], 0⟩ 0 (String.toList "TXN00000001")).2.2.2.2.2
      gstN 100 0 1 [] [] (by decide) (by decide)⟩⟩

/-! ## The running-balance invariant (C1) -/

/-- Every synthesized pre-corruption amount is a `Q.round2` output, hence
in reduced form. -/
theorem amountFor_reduced (o : Oracle) (p : Nat) (ty : Chars) :
    ((amountFor o p ty).1).Reduced := by
  unfold amountFor
  by_cases h1 : ty ∈ (["deposit", "refund", "interest"].map String.toList)
  · rw [if_pos h1]
    exact Q.round2_reduced _
  · rw [if_neg h1]
    by_cases h2 : ty ∈ (["withdrawal", "payment", "transfer"].map String.toList)
    · rw [if_pos h2]
      exact Q.round2_reduced _
    · rw [if_neg h2]
      by_cases h3 : ty = String.toList "fee"
      · rw [if_pos h3]
        exact Q.round2_reduced _
      · rw [if_neg h3]
        exact Q.round2_reduced _

/-- With a valid stream and error rate 0, the 12 per-field corruption
trials all pass the value through; 12 draws are consumed. -/
theorem corruptRecord_zero {o : Oracle} (ho : Oracle.Valid o) (r : PureRec) (p : Nat) :
    corruptRecord o (Q.ofInt 0) r p =
      (⟨Value.str r.txid, Value.str r.ts, Value.str r.cust, Value.str r.acct,
        Value.str r.ty, Value.num r.amt, Value.str r.curr, Value.num r.balAfter,
        Value.str r.stat, r.merch, r.categ, Value.str r.loc⟩, p + 12) := by
  have hz : Q.mul (Q.ofInt 0) (Q.norm 3 2) = Q.ofInt 0 := by decide
  simp only [corruptRecord, hz, maybe_corrupt_zero ho]

/-- One synthesis step at error rate 0, decomposed: the appended record
carries exactly the pure fields, the ghost mirrors acct/amount/balance,
and ledger, init log and balance-after all factor through `applyLedger`
at the pure account and amount. -/
theorem genOne_step {o : Oracle} (ho : Oracle.Valid o) (win : DateWin) (lazy : Bool)
    (acc : List (Chars × List Chars)) (cids : List Chars) (idNum : Nat) (st : GenState) :
    ∃ (p pos2 : Nat) (r : PureRec),
      r.amt.Reduced ∧
      r.balAfter = Q.round2 ((applyLedger o p lazy st.bal st.initLog r.acct r.amt).1) ∧
      genOne o (Q.ofInt 0) win lazy acc cids idNum st =
        { txns := st.txns ++ [⟨Value.str r.txid, Value.str r.ts, Value.str r.cust,
            Value.str r.acct, Value.str r.ty, Value.num r.amt, Value.str r.curr,
            Value.num r.balAfter, Value.str r.stat, r.merch, r.categ, Value.str r.loc⟩],
          ghosts := st.ghosts ++ [⟨r.acct, r.amt, r.balAfter⟩],
          ids := st.ids ++ [r.txid],
          bal := (applyLedger o p lazy st.bal st.initLog r.acct r.amt).2.1,
          initLog := (applyLedger o p lazy st.bal st.initLog r.acct r.amt).2.2.1,
          pos := pos2 } := by
  refine ⟨(amountFor o ((random_date o st.pos win.1 win.2).2 + 3)
      (choiceD TRANSACTION_TYPES (o ((random_date o st.pos win.1 win.2).2 + 2)))).2 + 1,
    (corruptRecord o (Q.ofInt 0)
      (synthPure o win lazy acc cids idNum st.bal st.initLog st.pos).1
      (synthPure o win lazy acc cids idNum st.bal st.initLog st.pos).2.2.2).2,
    (synthPure o win lazy acc cids idNum st.bal st.initLog st.pos).1, ?_, rfl, ?_⟩
  · exact amountFor_reduced o _ _
  · have hc := corruptRecord_zero ho
      (synthPure o win lazy acc cids idNum st.bal st.initLog st.pos).1
      (synthPure o win lazy acc cids idNum st.bal st.initLog st.pos).2.2.2
    have he : genOne o (Q.ofInt 0) win lazy acc cids idNum st =
        { txns := st.txns ++ [(corruptRecord o (Q.ofInt 0)
            (synthPure o win lazy acc cids idNum st.bal st.initLog st.pos).1
            (synthPure o win lazy acc cids idNum st.bal st.initLog st.pos).2.2.2).1],
          ghosts := st.ghosts ++
            [⟨(synthPure o win lazy acc cids idNum st.bal st.initLog st.pos).1.acct,
              (synthPure o win lazy acc cids idNum st.bal st.initLog st.pos).1.amt,
              (synthPure o win lazy acc cids idNum st.bal st.initLog st.pos).1.balAfter⟩],
          ids := st.ids ++
            [(synthPure o win lazy acc cids idNum st.bal st.initLog st.pos).1.txid],
          bal := (synthPure o win lazy acc cids idNum st.bal st.initLog st.pos).2.1,
          initLog := (synthPure o win lazy acc cids idNum st.bal st.initLog st.pos).2.2.1,
          pos := (corruptRecord o (Q.ofInt 0)
            (synthPure o win lazy acc cids idNum st.bal st.initLog st.pos).1
            (synthPure o win lazy acc cids idNum st.bal st.initLog st.pos).2.2.2).2 } := rfl
    rw [he, hc]
    rfl

/-- `applyLedger`, case-analysed on the prior presence of the account:
the posted balance is the fetched (hit) or freshly drawn (miss) prior
balance plus the amount, and the init log grows by the fresh draw exactly
on a miss. -/
theorem applyLedger_cases (o : Oracle) (p : Nat) (lazy : Bool) (bal initLog : Ledger)
    (acct : Chars) (amt : Q) :
    (∃ v, lookupQ bal acct = some v ∧
      (applyLedger o p lazy bal initLog acct amt).1 = Q.add v amt ∧
      (applyLedger o p lazy bal initLog acct amt).2.2.1 = initLog) ∨
    (lookupQ bal acct = Option.none ∧
      (applyLedger o p lazy bal initLog acct amt).1
        = Q.add (Q.add (Q.ofInt 1000) (Q.mul (o p) (Q.ofInt 9000))) amt ∧
      (applyLedger o p lazy bal initLog acct amt).2.2.1
        = initLog ++ [(acct, Q.add (Q.ofInt 1000) (Q.mul (o p) (Q.ofInt 9000)))]) := by
  unfold applyLedger
  cases lazy with
  | true =>
    rcases h : lookupQ bal acct with _ | v
    · exact Or.inr ⟨rfl, rfl, rfl⟩
    · exact Or.inl ⟨v, rfl, rfl, rfl⟩
  | false =>
    rcases h : lookupQ bal acct with _ | v
    · exact Or.inr ⟨rfl, rfl, rfl⟩
    · exact Or.inl ⟨v, rfl, rfl, rfl⟩

/-- `applyLedger` updates exactly the touched account's ledger entry, to
the posted balance. -/
theorem applyLedger_lookup (o : Oracle) (p : Nat) (lazy : Bool) (bal initLog : Ledger)
    (acct : Chars) (amt : Q) (x : Chars) :
    lookupQ (applyLedger o p lazy bal initLog acct amt).2.1 x
      = if x = acct then some ((applyLedger o p lazy bal initLog acct amt).1)
        else lookupQ bal x := by
  unfold applyLedger
  cases lazy with
  | true =>
    rcases h : lookupQ bal acct with _ | v
    · by_cases hx : x = acct <;> simp [lookupQ_setEntry, hx]
    · by_cases hx : x = acct <;> simp [lookupQ_setEntry, hx]
  | false =>
    rcases h : lookupQ bal acct with _ | v
    · by_cases hx : x = acct <;> simp [lookupQ_setEntry, hx]
    · by_cases hx : x = acct <;> simp [lookupQ_setEntry, hx]

/-- Ghost-level running sum of amounts on one account, summed with the
normalizing `Q.add` (right fold over the filtered ghosts). -/
def sumAmt (gs : List PureTx) (a : Chars) : Q :=
  (gs.filter (fun g => g.account = a)).foldr (fun g s => Q.add g.amount s) (Q.ofInt 0)

theorem sumAmt_reduced (gs : List PureTx) (a : Chars) : (sumAmt gs a).Reduced := by
  unfold sumAmt
  induction gs with
  | nil => exact Q.ofInt_reduced 0
  | cons g rest ih =>
    simp only [List.filter_cons]
    by_cases h : g.account = a
    · rw [if_pos (by simpa using h)]
      exact Q.add_reduced _ _
    · rw [if_neg (by simpa using h)]
      exact ih

theorem sumAmt_toRat (gs : List PureTx) (a : Chars) (h : ∀ g ∈ gs, g.amount.den ≠ 0) :
    Q.toRat (sumAmt gs a)
      = ((gs.filter (fun g => g.account = a)).map (fun g => Q.toRat g.amount)).sum := by
  unfold sumAmt
  induction gs with
  | nil => simpa using Q.toRat_ofInt 0
  | cons g rest ih =>
    have hr : ∀ g' ∈ rest, g'.amount.den ≠ 0 :=
      fun g' hg' => h g' (List.mem_cons_of_mem _ hg')
    simp only [List.filter_cons]
    by_cases hacc : g.account = a
    · rw [if_pos (by simpa using hacc)]
      have hd : ((rest.filter (fun g => g.account = a)).foldr
          (fun g s => Q.add g.amount s) (Q.ofInt 0)).den ≠ 0 :=
        Q.reduced_den_pos (sumAmt_reduced rest a)
      show Q.toRat (Q.add g.amount _) = _
      rw [Q.toRat_add (h g (List.mem_cons_self _ _)) hd, ih hr, List.map_cons,
        List.sum_cons]
    · rw [if_neg (by simpa using hacc)]
      exact ih hr

theorem sumAmt_append (gs : List PureTx) (g : PureTx) (a : Chars)
    (h : ∀ x ∈ gs, x.amount.den ≠ 0) (hg : g.amount.den ≠ 0) :
    Q.toRat (sumAmt (gs ++ [g]) a)
      = Q.toRat (sumAmt gs a) + (if g.account = a then Q.toRat g.amount else 0) := by
  have hall : ∀ x ∈ gs ++ [g], x.amount.den ≠ 0 := by
    intro x hx
    rcases List.mem_append.mp hx with hx | hx
    · exact h x hx
    · have he := List.mem_singleton.mp hx
      rw [he]
      exact hg
  rw [sumAmt_toRat _ _ hall, sumAmt_toRat _ _ h, List.filter_append]
  by_cases hacc : g.account = a
  · simp [hacc]
  · simp [hacc]

theorem sumAmt_of_filter_nil (gs : List PureTx) (a : Chars)
    (h : gs.filter (fun g => g.account = a) = []) : sumAmt gs a = Q.ofInt 0 := by
  unfold sumAmt
  rw [h]
  rfl

theorem getD_append_lt {α : Type} [Inhabited α] (l : List α) (x : α) (i : Nat)
    (h : i < l.length) : (l ++ [x]).getD i default = l.getD i default :=
  List.getD_append _ _ _ _ h

theorem getD_append_len {α : Type} [Inhabited α] (l : List α) (x : α) (i : Nat)
    (h : i = l.length) : (l ++ [x]).getD i default = x := by
  subst h
  rw [List.getD_eq_getElem?_getD, List.getElem?_concat_length]
  rfl

theorem take_append_le {α : Type} (l l' : List α) (n : Nat) (h : n ≤ l.length) :
    (l ++ l').take n = l.take n := by
  rw [List.take_append_eq_append_take, Nat.sub_eq_zero_of_le h, List.take_zero,
    List.append_nil]

/-- The generation invariant tying the emitted records, the ghost
transactions, the ledger and the first-touch init log together: ledger
entries are reduced and equal (as rationals) to the logged initial balance
plus the running amount sum; records mirror ghost account/amount/balance;
each ghost balance-after is the 2-decimal rounding of the initial balance
plus the running sum up to and including it. -/
def Inv (st : GenState) : Prop :=
  st.ghosts.length = st.txns.length ∧
  (∀ g ∈ st.ghosts, (PureTx.amount g).Reduced) ∧
  (∀ a v, lookupQ st.bal a = some v → v.Reduced ∧
    ∃ w, lookupQ st.initLog a = some w ∧ w.Reduced ∧
      Q.toRat v = Q.toRat w + Q.toRat (sumAmt st.ghosts a)) ∧
  (∀ a, lookupQ st.bal a = Option.none →
    lookupQ st.initLog a = Option.none ∧
    st.ghosts.filter (fun g => g.account = a) = []) ∧
  (∀ i, i < st.txns.length →
    (st.txns.getD i default).account_number
        = Value.str ((st.ghosts.getD i default).account) ∧
    (st.txns.getD i default).amount = Value.num ((st.ghosts.getD i default).amount) ∧
    (st.txns.getD i default).balance_after
        = Value.num ((st.ghosts.getD i default).balAfter)) ∧
  (∀ i, i < st.ghosts.length →
    (st.ghosts.getD i default).balAfter
      = Q.round2 (Q.add
          (lookupD st.initLog ((st.ghosts.getD i default).account) (Q.ofInt 0))
          (sumAmt (st.ghosts.take (i + 1)) ((st.ghosts.getD i default).account))))

/-- One `applyLedger` posting preserves the ledger/init-log part of the
invariant, and provides the data needed for the new ghost. -/
theorem inv_bal_step (o : Oracle) (p : Nat) (lazy : Bool) (bal initLog : Ledger)
    (gs : List PureTx) (r : PureRec)
    (hram : r.amt.Reduced)
    (hred : ∀ g ∈ gs, (PureTx.amount g).Reduced)
    (hbal : ∀ a v, lookupQ bal a = some v → v.Reduced ∧
      ∃ w, lookupQ initLog a = some w ∧ w.Reduced ∧
        Q.toRat v = Q.toRat w + Q.toRat (sumAmt gs a))
    (hmiss : ∀ a, lookupQ bal a = Option.none →
      lookupQ initLog a = Option.none ∧ gs.filter (fun g => g.account = a) = []) :
    (∀ a v, lookupQ (applyLedger o p lazy bal initLog r.acct r.amt).2.1 a = some v →
      v.Reduced ∧ ∃ w,
        lookupQ (applyLedger o p lazy bal initLog r.acct r.amt).2.2.1 a = some w ∧
        w.Reduced ∧
        Q.toRat v = Q.toRat w
          + Q.toRat (sumAmt (gs ++ [⟨r.acct, r.amt, r.balAfter⟩]) a)) ∧
    (∀ a, lookupQ (applyLedger o p lazy bal initLog r.acct r.amt).2.1 a = Option.none →
      lookupQ (applyLedger o p lazy bal initLog r.acct r.amt).2.2.1 a = Option.none ∧
      (gs ++ ([⟨r.acct, r.amt, r.balAfter⟩] : List PureTx)).filter
        (fun g => g.account = a) = []) ∧
    (∀ x, x ≠ r.acct →
      lookupQ (applyLedger o p lazy bal initLog r.acct r.amt).2.2.1 x
        = lookupQ initLog x) ∧
    (∃ w, lookupQ (applyLedger o p lazy bal initLog r.acct r.amt).2.2.1 r.acct = some w ∧
      w.Reduced ∧
      Q.toRat ((applyLedger o p lazy bal initLog r.acct r.amt).1)
        = Q.toRat w + Q.toRat (sumAmt (gs ++ [⟨r.acct, r.amt, r.balAfter⟩]) r.acct)) ∧
    ((applyLedger o p lazy bal initLog r.acct r.amt).2.2.1 = initLog ∨
      gs.filter (fun g => g.account = r.acct) = []) ∧
    ((applyLedger o p lazy bal initLog r.acct r.amt).1).Reduced := by
  have hden : ∀ g ∈ gs, (PureTx.amount g).den ≠ 0 :=
    fun g hg => Q.reduced_den_pos (hred g hg)
  have hsum : ∀ a, Q.toRat (sumAmt (gs ++ [⟨r.acct, r.amt, r.balAfter⟩]) a)
      = Q.toRat (sumAmt gs a) + (if r.acct = a then Q.toRat r.amt else 0) :=
    fun a => sumAmt_append gs _ a hden (Q.reduced_den_pos hram)
  have hlook := applyLedger_lookup o p lazy bal initLog r.acct r.amt
  rcases applyLedger_cases o p lazy bal initLog r.acct r.amt with
    ⟨vold, hlo, h1, h2⟩ | ⟨hlo, h1, h2⟩
  · obtain ⟨hvred, w, hw, hwred, hwsum⟩ := hbal r.acct vold hlo
    refine ⟨?_, ?_, ?_, ?_, Or.inl h2, by rw [h1]; exact Q.add_reduced _ _⟩
    · intro a v hv
      rw [hlook] at hv
      by_cases hax : a = r.acct
      · subst hax
        rw [if_pos rfl] at hv
        have hv1 := Option.some.inj hv
        refine ⟨?_, w, ?_, hwred, ?_⟩
        · rw [← hv1, h1]
          exact Q.add_reduced _ _
        · rw [h2]
          exact hw
        · rw [← hv1, h1,
            Q.toRat_add (Q.reduced_den_pos hvred) (Q.reduced_den_pos hram),
            hwsum, hsum, if_pos rfl]
          ring
      · rw [if_neg hax] at hv
        obtain ⟨hv2red, w2, hw2, hw2red, hw2sum⟩ := hbal a v hv
        refine ⟨hv2red, w2, ?_, hw2red, ?_⟩
        · rw [h2]
          exact hw2
        · rw [hsum, if_neg (fun he => hax he.symm), add_zero]
          exact hw2sum
    · intro a ha
      rw [hlook] at ha
      by_cases hax : a = r.acct
      · rw [if_pos hax] at ha
        exact absurd ha (Option.some_ne_none _)
      · rw [if_neg hax] at ha
        obtain ⟨hil, hfil⟩ := hmiss a ha
        refine ⟨by rw [h2]; exact hil, ?_⟩
        rw [List.filter_append, hfil, List.nil_append]
        have hne : ¬ ((⟨r.acct, r.amt, r.balAfter⟩ : PureTx).account = a) :=
          fun he => hax he.symm
        simp [hne]
    · intro x hx
      rw [h2]
    · refine ⟨w, ?_, hwred, ?_⟩
      · rw [h2]
        exact hw
      · rw [h1, Q.toRat_add (Q.reduced_den_pos hvred) (Q.reduced_den_pos hram), hwsum,
          hsum, if_pos rfl]
        ring
  · obtain ⟨hil, hfil⟩ := hmiss r.acct hlo
    have hc_red : (Q.add (Q.ofInt 1000) (Q.mul (o p) (Q.ofInt 9000))).Reduced :=
      Q.add_reduced _ _
    have hlooknew : lookupQ (applyLedger o p lazy bal initLog r.acct r.amt).2.2.1 r.acct
        = some (Q.add (Q.ofInt 1000) (Q.mul (o p) (Q.ofInt 9000))) := by
      rw [h2, lookupQ_append_single, hil]
      simp
    have hlookpres : ∀ x, x ≠ r.acct →
        lookupQ (applyLedger o p lazy bal initLog r.acct r.amt).2.2.1 x
          = lookupQ initLog x := by
      intro x hx
      rw [h2, lookupQ_append_single]
      rcases hq : lookupQ initLog x with _ | w2
      · simp [hx]
      · rfl
    have hS0 : Q.toRat (sumAmt gs r.acct) = 0 := by
      rw [sumAmt_of_filter_nil gs r.acct hfil, Q.toRat_ofInt]
      norm_num
    refine ⟨?_, ?_, hlookpres, ?_, Or.inr hfil, by rw [h1]; exact Q.add_reduced _ _⟩
    · intro a v hv
      rw [hlook] at hv
      by_cases hax : a = r.acct
      · subst hax
        rw [if_pos rfl] at hv
        have hv1 := Option.some.inj hv
        refine ⟨?_, Q.add (Q.ofInt 1000) (Q.mul (o p) (Q.ofInt 9000)), hlooknew,
          hc_red, ?_⟩
        · rw [← hv1, h1]
          exact Q.add_reduced _ _
        · rw [← hv1, h1,
            Q.toRat_add (Q.reduced_den_pos hc_red) (Q.reduced_den_pos hram),
            hsum, if_pos rfl, hS0]
          ring
      · rw [if_neg hax] at hv
        obtain ⟨hv2red, w2, hw2, hw2red, hw2sum⟩ := hbal a v hv
        refine ⟨hv2red, w2, ?_, hw2red, ?_⟩
        · rw [hlookpres a hax]
          exact hw2
        · rw [hsum, if_neg (fun he => hax he.symm), add_zero]
          exact hw2sum
    · intro a ha
      rw [hlook] at ha
      by_cases hax : a = r.acct
      · rw [if_pos hax] at ha
        exact absurd ha (Option.some_ne_none _)
      · rw [if_neg hax] at ha
        obtain ⟨hil2, hfil2⟩ := hmiss a ha
        refine ⟨?_, ?_⟩
        · rw [hlookpres a hax]
          exact hil2
        · rw [List.filter_append, hfil2, List.nil_append]
          have hne : ¬ ((⟨r.acct, r.amt, r.balAfter⟩ : PureTx).account = a) :=
            fun he => hax he.symm
          simp [hne]
    · refine ⟨Q.add (Q.ofInt 1000) (Q.mul (o p) (Q.ofInt 9000)), hlooknew, hc_red, ?_⟩
      rw [h1, Q.toRat_add (Q.reduced_den_pos hc_red) (Q.reduced_den_pos hram),
        hsum, if_pos rfl, hS0]
      ring

/-- One synthesis step at error rate 0 preserves the generation
invariant. -/
theorem inv_step {o : Oracle} (ho : Oracle.Valid o) (win : DateWin) (lazy : Bool)
    (acc : List (Chars × List Chars)) (cids : List Chars) (idNum : Nat) (st : GenState)
    (hI : Inv st) : Inv (genOne o (Q.ofInt 0) win lazy acc cids idNum st) := by
  unfold Inv at hI
  obtain ⟨hlen, hred, hbal, hmiss, hcorr, hhist⟩ := hI
  obtain ⟨p, pos2, r, hram, hrb, hst⟩ := genOne_step ho win lazy acc cids idNum st
  rw [hst]
  obtain ⟨hbal2, hmiss2, hpres, ⟨w, hw, hwred, hwsum⟩, hcase, halred⟩ :=
    inv_bal_step o p lazy st.bal st.initLog st.ghosts r hram hred hbal hmiss
  unfold Inv
  dsimp only
  refine ⟨?_, ?_, hbal2, hmiss2, ?_, ?_⟩
  · simp [hlen]
  · intro x hx
    rcases List.mem_append.mp hx with h | h
    · exact hred x h
    · have he := List.mem_singleton.mp h
      rw [he]
      exact hram
  · intro i hi
    rw [List.length_append, List.length_singleton] at hi
    by_cases hlt : i < st.txns.length
    · have hlt2 : i < st.ghosts.length := by
        rw [hlen]
        exact hlt
      rw [getD_append_lt _ _ _ hlt, getD_append_lt _ _ _ hlt2]
      exact hcorr i hlt
    · have hieq : i = st.txns.length := by omega
      have hieq2 : i = st.ghosts.length := by
        rw [hlen]
        exact hieq
      rw [getD_append_len _ _ _ hieq, getD_append_len _ _ _ hieq2]
      exact ⟨rfl, rfl, rfl⟩
  · intro i hi
    rw [List.length_append, List.length_singleton] at hi
    by_cases hlt : i < st.ghosts.length
    · rw [getD_append_lt _ _ _ hlt, take_append_le _ _ _ (by omega)]
      have hA : lookupD (applyLedger o p lazy st.bal st.initLog r.acct r.amt).2.2.1
          ((st.ghosts.getD i default).account) (Q.ofInt 0)
          = lookupD st.initLog ((st.ghosts.getD i default).account) (Q.ofInt 0) := by
        rcases hcase with hEq | hfil
        · rw [hEq]
        · have hmem : st.ghosts.getD i default ∈ st.ghosts := by
            rw [List.getD_eq_getElem?_getD, List.getElem?_eq_getElem hlt]
            exact List.getElem_mem _
          have hneq : (st.ghosts.getD i default).account ≠ r.acct := by
            intro he
            have hin : st.ghosts.getD i default
                ∈ st.ghosts.filter (fun g => g.account = r.acct) :=
              List.mem_filter.mpr ⟨hmem, by rw [decide_eq_true_eq]; exact he⟩
            rw [hfil] at hin
            exact absurd hin (List.not_mem_nil _)
          unfold lookupD
          rw [hpres _ hneq]
      rw [hA]
      exact hhist i hlt
    · have hieq : i = st.ghosts.length := by omega
      rw [getD_append_len _ _ _ hieq]
      have ht1 : (st.ghosts ++ [(⟨r.acct, r.amt, r.balAfter⟩ : PureTx)]).take (i + 1)
          = st.ghosts ++ [(⟨r.acct, r.amt, r.balAfter⟩ : PureTx)] := by
        have hfull : i + 1
            = (st.ghosts ++ [(⟨r.acct, r.amt, r.balAfter⟩ : PureTx)]).length := by
          rw [List.length_append, List.length_singleton, hieq]
        rw [hfull, List.take_length]
      rw [ht1]
      show r.balAfter = Q.round2 (Q.add
        (lookupD (applyLedger o p lazy st.bal st.initLog r.acct r.amt).2.2.1 r.acct
          (Q.ofInt 0))
        (sumAmt (st.ghosts ++ [(⟨r.acct, r.amt, r.balAfter⟩ : PureTx)]) r.acct))
      nth_rewrite 1 [hrb]
      have hD : lookupD (applyLedger o p lazy st.bal st.initLog r.acct r.amt).2.2.1
          r.acct (Q.ofInt 0) = w := by
        unfold lookupD
        rw [hw]
        rfl
      rw [hD]
      refine congrArg Q.round2 (Q.ext_reduced halred (Q.add_reduced _ _) ?_)
      rw [Q.toRat_add (Q.reduced_den_pos hwred) (Q.reduced_den_pos (sumAmt_reduced _ _))]
      exact hwsum

/-- The synthesis loop at error rate 0 preserves the invariant. -/
theorem inv_genLoop {o : Oracle} (ho : Oracle.Valid o) (win : DateWin) (lazy : Bool)
    (acc : List (Chars × List Chars)) (cids : List Chars) (k : Nat) :
    ∀ idNum st, Inv st → Inv (genLoop o (Q.ofInt 0) win lazy acc cids k idNum st) := by
  induction k with
  | zero =>
    intro _ st h
    exact h
  | succ k ih =>
    intro idNum st h
    exact ih (idNum + 1) _ (inv_step ho win lazy acc cids idNum st h)

/-- The invariant holds after the whole initial generation at error
rate 0. -/
theorem inv_initial {o : Oracle} (ho : Oracle.Valid o) (n : Nat) :
    Inv (generate_initial_data o (Q.ofInt 0) n).2 := by
  have h0 : Inv ⟨[], [], [], [], [], (genAccountsLoop o customerIds 0).2⟩ := by
    unfold Inv
    refine ⟨rfl, ?_, ?_, ?_, ?_, ?_⟩
    · intro g hg
      exact absurd hg (List.not_mem_nil _)
    · intro a v hv
      exact absurd hv (by simp [lookupQ])
    · intro a _
      exact ⟨rfl, rfl⟩
    · intro i hi
      exact absurd hi (by simp)
    · intro i hi
      exact absurd hi (by simp)
  exact inv_genLoop ho (364, 0) true (genAccountsLoop o customerIds 0).1 customerIds n
    1 _ h0

/-- C1 (amended): absent corruption (error rate 0), every record of the
initial generation carries its ghost's account, amount and balance-after,
and that balance-after equals the **2-decimal rounding** of the account's
initial ledger balance plus the sum of the amounts of all
earlier-generated transactions on that account plus this transaction's own
amount.  (The spec's unrounded running balance is wrong: the initial
balance is drawn with full precision and only the emitted copy is rounded;
see the counterexample.) -/
theorem balance_running_sum (o : Oracle) (ho : Oracle.Valid o) (n i : Nat)
    (hi : i < (generate_initial_data o (Q.ofInt 0) n).2.txns.length) :
    ((generate_initial_data o (Q.ofInt 0) n).2.txns.getD i default).account_number
      = Value.str
          (((generate_initial_data o (Q.ofInt 0) n).2.ghosts.getD i default).account) ∧
    ((generate_initial_data o (Q.ofInt 0) n).2.txns.getD i default).amount
      = Value.num
          (((generate_initial_data o (Q.ofInt 0) n).2.ghosts.getD i default).amount) ∧
    ((generate_initial_data o (Q.ofInt 0) n).2.txns.getD i default).balance_after
      = Value.num
          (((generate_initial_data o (Q.ofInt 0) n).2.ghosts.getD i default).balAfter) ∧
    ((generate_initial_data o (Q.ofInt 0) n).2.ghosts.getD i default).balAfter
      = Q.round2 (Q.add
          (lookupD (generate_initial_data o (Q.ofInt 0) n).2.initLog
            (((generate_initial_data o (Q.ofInt 0) n).2.ghosts.getD i default).account)
            (Q.ofInt 0))
          (sumAmt ((generate_initial_data o (Q.ofInt 0) n).2.ghosts.take (i + 1))
            (((generate_initial_data o (Q.ofInt 0) n).2.ghosts.getD i
                default).account))) := by
  have hI := inv_initial ho n
  unfold Inv at hI
  obtain ⟨hlen, _, _, _, hcorr, hhist⟩ := hI
  obtain ⟨h1, h2, h3⟩ := hcorr i hi
  have hi2 : i < (generate_initial_data o (Q.ofInt 0) n).2.ghosts.length := by
    rw [hlen]
    exact hi
  exact ⟨h1, h2, h3, hhist i hi2⟩

theorem balance_running_sum_witness :
    Oracle.Valid zo ∧ 0 < (generate_initial_data zo (Q.ofInt 0) 1).2.txns.length ∧
    (((generate_initial_data zo (Q.ofInt 0) 1).2.txns.getD 0 default).account_number
      = Value.str
          (((generate_initial_data zo (Q.ofInt 0) 1).2.ghosts.getD 0 default).account) ∧
    ((generate_initial_data zo (Q.ofInt 0) 1).2.txns.getD 0 default).amount
      = Value.num
          (((generate_initial_data zo (Q.ofInt 0) 1).2.ghosts.getD 0 default).amount) ∧
    ((generate_initial_data zo (Q.ofInt 0) 1).2.txns.getD 0 default).balance_after
      = Value.num
          (((generate_initial_data zo (Q.ofInt 0) 1).2.ghosts.getD 0 default).balAfter) ∧
    ((generate_initial_data zo (Q.ofInt 0) 1).2.ghosts.getD 0 default).balAfter
      = Q.round2 (Q.add
          (lookupD (generate_initial_data zo (Q.ofInt 0) 1).2.initLog
            (((generate_initial_data zo (Q.ofInt 0) 1).2.ghosts.getD 0 default).account)
            (Q.ofInt 0))
          (sumAmt ((generate_initial_data zo (Q.ofInt 0) 1).2.ghosts.take 1)
            (((generate_initial_data zo (Q.ofInt 0) 1).2.ghosts.getD 0
                default).account)))) :=
  ⟨zo_valid, by decide, balance_running_sum zo zo_valid 1 0 (by decide)⟩

/-- A valid stream whose every draw is `1/8192`: the initial balance drawn
from it has more than two decimal places. -/
def oR : Oracle := fun _ => Q.norm 1 8192

theorem oR_valid : Oracle.Valid oR := by
  intro n
  refine ⟨show 0 < (Q.norm 1 8192).den by decide, ?_, ?_⟩
  · rw [show oR n = Q.norm 1 8192 from rfl, Q.toRat_norm (by norm_num)]
    norm_num
  · rw [show oR n = Q.norm 1 8192 from rfl, Q.toRat_norm (by norm_num)]
    norm_num

/-- C1 counterexample: with no corruption, the stored balance-after of the
first generated record is the rounded running balance but **differs** from
the exact (unrounded) initial-balance-plus-amounts sum, because the lazily
drawn initial balance has more than two decimal places. -/
theorem balance_exact_sum_counterexample :
    ((generate_initial_data oR (Q.ofInt 0) 1).2.ghosts.getD 0 default).balAfter
      = Q.round2 (Q.add
          (lookupD (generate_initial_data oR (Q.ofInt 0) 1).2.initLog
            (((generate_initial_data oR (Q.ofInt 0) 1).2.ghosts.getD 0 default).account)
            (Q.ofInt 0))
          (sumAmt ((generate_initial_data oR (Q.ofInt 0) 1).2.ghosts.take 1)
            (((generate_initial_data oR (Q.ofInt 0) 1).2.ghosts.getD 0
                default).account))) ∧
    ((generate_initial_data oR (Q.ofInt 0) 1).2.txns.getD 0 default).balance_after
      ≠ Value.num (Q.add
          (lookupD (generate_initial_data oR (Q.ofInt 0) 1).2.initLog
            (((generate_initial_data oR (Q.ofInt 0) 1).2.ghosts.getD 0 default).account)
            (Q.ofInt 0))
          (sumAmt ((generate_initial_data oR (Q.ofInt 0) 1).2.ghosts.take 1)
            (((generate_initial_data oR (Q.ofInt 0) 1).2.ghosts.getD 0
                default).account))) := by
  decide

end FinGen
